import Mathlib

/-!
Verification of the query-compilation engine vendored in this repository at
src/chatter-api/node_modules/massive/lib. The JavaScript sources are embedded
shallowly: JS values occurring in criteria become the inductive `JSValue`,
criteria objects become the inductive `Crit`, and the compiler functions
(`lex`, `parseKey`, the operations table with its mutators, `conjoin`,
`predicate`, `setCriteria`, the `Select` constructor and the join composer)
become total Lean functions, with every `throw` in the source modelled as an
`Except.error` carrying the thrown message.
-/

set_option maxRecDepth 4000

/-- A JavaScript value as it can occur in a criteria object: `undefined`,
`null`, booleans, (integer) numbers, strings, `Date` objects (carrying an
opaque printable tag) and arrays. Plain sub-objects do not occur as leaf
values in the modelled paths. -/
inductive JSValue where
  | vundef : JSValue
  | vnull : JSValue
  | vbool (b : Bool) : JSValue
  | vnum (n : Int) : JSValue
  | vstr (s : String) : JSValue
  | vdate (tag : String) : JSValue
  | varr (elems : List JSValue) : JSValue

/-- JavaScript truthiness of a `JSValue` (`if (condition.value)` etc.).
Arrays and `Date`s are always truthy; `0`, the empty string, `null`,
`undefined` and `false` are falsy. -/
def jsTruthy : JSValue → Bool
  | .vundef => false
  | .vnull => false
  | .vbool b => b
  | .vnum n => n != 0
  | .vstr s => s ≠ ""
  | .vdate _ => true
  | .varr _ => true

/-- `_.isDate` as used by `castTimestamp` (statement/delete.js line 61). -/
def isDate : JSValue → Bool
  | .vdate _ => true
  | _ => false

/-- The decimal digit characters. -/
def digitChar : Nat → Char
  | 0 => '0' | 1 => '1' | 2 => '2' | 3 => '3' | 4 => '4'
  | 5 => '5' | 6 => '6' | 7 => '7' | 8 => '8' | _ => '9'

/-- Decimal digits of a natural number, most significant first, written with
explicit fuel so the definition is structural and evaluates by `rfl`. -/
def natDigitsAux : Nat → Nat → List Char
  | 0, _ => []
  | fuel + 1, n =>
    if n < 10 then [digitChar n]
    else natDigitsAux fuel (n / 10) ++ [digitChar (n % 10)]

/-- Decimal rendering of a natural number, as JS string interpolation does. -/
def natStr (n : Nat) : String := String.mk (natDigitsAux (n + 1) n)

/-- Decimal rendering of a JS (integer) number. -/
def intStr : Int → String
  | .ofNat n => natStr n
  | .negSucc n => "-" ++ natStr (n + 1)

mutual

/-- How a `JSValue` prints when interpolated into a JS template literal
(backtick string): `null` → "null", `true` → "true", arrays join their
elements with commas (null/undefined elements print as empty). -/
def displayValue : JSValue → String
  | .vundef => "undefined"
  | .vnull => "null"
  | .vbool b => if b then "true" else "false"
  | .vnum n => intStr n
  | .vstr s => s
  | .vdate tag => tag
  | .varr l => displayList l

/-- Comma-joining of array elements for `displayValue`, matching
`Array.prototype.join`: `null` and `undefined` elements become empty. -/
def displayList : List JSValue → String
  | [] => ""
  | [v] =>
    match v with
    | .vnull => ""
    | .vundef => ""
    | v => displayValue v
  | v :: rest =>
    (match v with
     | .vnull => ""
     | .vundef => ""
     | v => displayValue v) ++ "," ++ displayList rest

end

mutual

/-- Modelled from the spec: the module lib/util/stringify required by
readable.js line 10 is not under src/. Per §4.3, document-mode and JSON
values are "serialized to their JSON text form" before being handed to the
operator mutators; this renders a `JSValue` as JSON text. No settled claim
depends on the concrete output of this function. -/
def jsonStringify : JSValue → String
  | .vundef => "undefined"
  | .vnull => "null"
  | .vbool b => if b then "true" else "false"
  | .vnum n => intStr n
  | .vstr s => "\"" ++ s ++ "\""
  | .vdate tag => "\"" ++ tag ++ "\""
  | .varr l => "[" ++ jsonStringifyList l ++ "]"

/-- Comma-joined JSON rendering of array elements for `jsonStringify`. -/
def jsonStringifyList : List JSValue → String
  | [] => ""
  | [v] => jsonStringify v
  | v :: rest => jsonStringify v ++ "," ++ jsonStringifyList rest

end

/-- Whitespace as split on by the lexer (parse-key.js line 76) and trimmed
by `String.prototype.trim`. -/
def isWs (c : Char) : Bool := c = ' ' || c = '\t' || c = '\r' || c = '\n'

/-- `String.prototype.trim` on a character list. -/
def trimChars (l : List Char) : List Char :=
  ((l.dropWhile isWs).reverse.dropWhile isWs).reverse

/-- JS `hay.indexOf(needle) > -1` on character lists. -/
def containsSub (needle : List Char) : List Char → Bool
  | [] => needle.isEmpty
  | c :: rest => needle.isPrefixOf (c :: rest) || containsSub needle rest

/-- JS `hay.indexOf(needle) > -1`: substring containment. -/
def strContains (hay needle : String) : Bool := containsSub needle.data hay.data

/-- Modelled from the spec: lib/util/quote required by parse-key.js is not
under src/. Per §8's examples (`"name" = $1`, `"tags" IN ($1,$2)`) an
identifier is wrapped in double quotes. -/
def quote (s : String) : String := "\"" ++ s ++ "\""

/-- ASCII lower-casing as `String.prototype.toLowerCase` behaves on the
operation tokens (all ASCII), written over the character list so it
evaluates in the kernel. -/
def lowerChar (c : Char) : Char :=
  if 65 ≤ c.toNat ∧ c.toNat ≤ 90 then Char.ofNat (c.toNat + 32) else c

/-- `String.prototype.toLowerCase` (ASCII). -/
def toLowerStr (s : String) : String := String.mk (s.data.map lowerChar)

/-- `Array.prototype.join` with a separator. -/
def joinSep (sep : String) : List String → String
  | [] => ""
  | [s] => s
  | s :: rest => s ++ sep ++ joinSep sep rest

/-- Result of tokenizing a field-reference string (parse-key.js `lex`,
lines 12-102). -/
structure LexResult where
  pathShape : List Bool
  jsonAsText : Bool
  hasCast : Bool
  tokens : List String

/-- Lexer state while scanning a key: completed tokens and the current
buffer are kept in reverse order. -/
structure LexSt where
  done : List (List Char)
  buffer : List Char
  pathShape : List Bool
  inQuotation : Bool
  hasCast : Bool
  jsonAsText : Bool

/-- One step of the lexer's character loop (parse-key.js lines 24-88). -/
def lexStep (st : LexSt) (c : Char) : LexSt :=
  if st.inQuotation && c ≠ '"' then
    { st with buffer := c :: st.buffer }
  else if c = '"' then
    -- closing a quotation completes a token; opening one only toggles
    if st.inQuotation then
      { st with done := st.buffer :: st.done, buffer := [],
                inQuotation := false }
    else
      { st with inQuotation := true }
  else if c = ':' then
    -- a cast only when it is the second ':' in a row; the first is buffered
    match st.buffer with
    | ':' :: pre =>
      if st.hasCast then { st with buffer := pre }
      else { st with buffer := [], done := pre :: st.done,
                     hasCast := true, jsonAsText := true }
    | _ => { st with buffer := ':' :: st.buffer }
  else if c = '.' then
    { st with pathShape := true :: st.pathShape,
              done := st.buffer :: st.done, buffer := [] }
  else if c = '[' then
    { st with pathShape := false :: st.pathShape,
              done := st.buffer :: st.done, buffer := [] }
  else if c = ']' then
    { st with done := st.buffer :: st.done, buffer := [] }
  else if isWs c then
    { st with done := st.buffer :: st.done, buffer := [] }
  else
    { st with buffer := c :: st.buffer }

/-- Tokenize a field-reference string (parse-key.js `lex`). The final token
list drops empty tokens; each token is trimmed (quoted tokens can carry
inner whitespace). -/
def lex (key : String) : LexResult :=
  let fin := (trimChars key.data).foldl lexStep
    ⟨[], [], [], false, false, false⟩
  let raw := (fin.buffer :: fin.done).reverse.map
    (fun t => trimChars t.reverse)
  { pathShape := fin.pathShape.reverse
    jsonAsText := fin.jsonAsText
    hasCast := fin.hasCast
    tokens := (raw.filter (fun t => t ≠ [])).map String.mk }

/-- A column of a `Readable` (readable.js lines 34-40 for plain relations,
646-654 for compounds): its name, the fully qualified SQL reference, and —
for compound members — the decomposition alias. -/
structure Col where
  name : String
  fullName : String
  colAlias : Option String := none

/-- A foreign key record as produced by the tables loader
(loader/tables.js): fks hang off the referenced (dependent) table and carry
the referencing (origin) table's identity and columns plus the referenced
columns. -/
structure Fk where
  fk : String
  origin_schema : String
  origin_name : String
  origin_columns : List String
  dependent_columns : List String

/-- A member of a compound `Readable`'s `joins` list as consumed by
parse-key.js (alias, relation name, optional schema), by `setCriteria`
(the compiled `on` parameters) and by `Select.prototype.format` (join type,
target text and compiled `on` predicate text). -/
structure JoinInfo where
  jalias : String
  relation : String
  jschema : Option String := none
  jtype : String := "INNER"
  target : String := ""
  onPredicate : String := "TRUE"
  onParams : List JSValue := []

/-- The slice of a `Readable` (readable.js) that the modelled functions
consume: identity, the connection's current schema, whether it is a
compound (`loader === 'join'`), its columns, primary key, foreign keys and
— for compounds — the join list. `pk = none` models a relation without a
primary key (`this.source.pk` falsy). -/
structure Readable where
  schema : String
  name : String
  currentSchema : String
  isJoin : Bool := false
  columns : List Col := []
  pk : Option (List String) := none
  fks : List Fk := []
  joins : List JoinInfo := []

/-- Modelled from the spec: lib/entity.js (the `Entity` base class providing
`delimitedFullName`) is not under src/. Readable.js line 39 and
statement/select.js line 217 interpolate it as the relation's qualified,
quoted SQL name; per spec §4.1/§8 the schema is omitted when it is the
connection's current schema. -/
def delimitedFullName (r : Readable) : String :=
  if r.schema = r.currentSchema then quote r.name
  else quote r.schema ++ "." ++ quote r.name

/-- Outcome of stripping leading disambiguation tokens from a key resolved
against a compound relation (parse-key.js lines 126-181): the alias, schema
and relation picked up, and the remaining tokens / path shape. -/
structure ResolveOut where
  ralias : Option String := none
  rschema : Option String := none
  rrelation : Option String := none
  tokens : List String
  pathShape : List Bool

/-- Cases 3-5 of the compound resolution (parse-key.js lines 149-173):
`joins.some(...)`, i.e. the join nodes are visited in order and for each
node the alias-substring test, then the relation-name test, then the
schema-and-name test are applied; the first node where any of the three
hits wins. Case 3 keeps the *token* as the alias
(`alias = tokens.shift()`). -/
def findJoin (tokens : List String) (pathShape : List Bool) :
    List JoinInfo → Option ResolveOut
  | [] => none
  | j :: js =>
    match tokens with
    | [] => none
    | t0 :: rest =>
      if strContains j.jalias t0 then
        some { ralias := some t0, tokens := rest,
               pathShape := pathShape.drop 1 }
      else if j.relation = t0 then
        some { ralias := some j.jalias, rrelation := some t0, tokens := rest,
               pathShape := pathShape.drop 1 }
      else if j.jschema = some t0 ∧ rest.head? = some j.relation then
        some { ralias := some j.jalias, rschema := some t0,
               rrelation := some j.relation, tokens := rest.drop 1,
               pathShape := pathShape.drop 2 }
      else findJoin tokens pathShape js

/-- Compound-relation token stripping (parse-key.js lines 128-181): case 1
(origin name), case 2 (origin schema + name, the only case retaining the
schema), cases 3-5 via `findJoin`, case 6 (no match: assume the origin).
With an empty token list every comparison against `undefined` fails in JS,
so the origin fallback applies. -/
def resolveCompound (src : Readable) (tokens : List String)
    (pathShape : List Bool) : ResolveOut :=
  match tokens with
  | [] => { rschema := some src.schema, rrelation := some src.name,
            tokens := [], pathShape := pathShape }
  | t0 :: rest =>
    if src.name = t0 then
      { rrelation := some t0, tokens := rest, pathShape := pathShape.drop 1 }
    else if src.schema = t0 ∧ rest.head? = some src.name then
      { rschema := some t0, rrelation := some src.name,
        tokens := rest.drop 1, pathShape := pathShape.drop 2 }
    else
      match findJoin (t0 :: rest) pathShape src.joins with
      | some out => out
      | none => { rschema := some src.schema, rrelation := some src.name,
                  tokens := t0 :: rest, pathShape := pathShape }

/-- The output of parse-key.js `module.exports` (lines 224-234). `field`,
`remainder` and `cast` are `Option`s where the JS leaves `undefined`. -/
structure ParsedKey where
  pschema : Option String
  prelation : Option String
  field : Option String
  pathElements : List String
  path : String
  lhs : String
  jsonElements : List String
  remainder : Option String
  isJSON : Bool

/-- JS `${x}` for an optional token (`undefined` prints as "undefined"). -/
def optTok : Option String → String
  | some s => s
  | none => "undefined"

/-- parse-key.js `module.exports` (lines 120-235): lex the key, strip
compound disambiguation tokens when the source is a compound, take the
field, build the quoted path, apply JSON traversal operators and an
explicit cast, and lower-case whatever tokens remain into the operation
`remainder`. -/
def parseKeyF (key : String) (source : Readable) (jsonAsText : Bool := true) :
    ParsedKey :=
  let lexed := lex key
  let res :=
    if source.isJoin then resolveCompound source lexed.tokens lexed.pathShape
    else { tokens := lexed.tokens, pathShape := lexed.pathShape }
  let field := res.tokens.head?
  let tokens := res.tokens.drop 1
  let pathShape := res.pathShape
  -- aliases may not include schemas; neither does the current schema
  let keepSchema : Option String :=
    if res.ralias.isSome ∨ res.rschema = some source.currentSchema then none
    else res.rschema
  let pathElements : List String :=
    (keepSchema.toList ++ (res.ralias.orElse (fun _ => res.rrelation)).toList
      ++ field.toList)
  let path := String.intercalate "." (pathElements.map quote)
  let step1 :
      String × List String × List String :=
    if pathShape.length = 1 then
      let op := if lexed.jsonAsText || jsonAsText then "->>" else "->"
      let el := optTok tokens.head?
      if pathShape.headD false then
        (path ++ op ++ "\x27" ++ el ++ "\x27", [el], tokens.drop 1)
      else
        (path ++ op ++ el, [el], tokens.drop 1)
    else if pathShape.length > 1 then
      let op := if jsonAsText then "#>>" else "#>"
      let els := tokens.take pathShape.length
      (path ++ op ++ "\x27\x7b" ++ String.intercalate "," els ++ "\x7d\x27",
        els, tokens.drop pathShape.length)
    else
      (path, [], tokens)
  let lhs0 := step1.1
  let jsonElements := step1.2.1
  let tokens1 := step1.2.2
  let step2 : String × List String :=
    if lexed.hasCast then
      let cast := optTok tokens1.head?
      if pathShape.length > 0 then
        ("(" ++ lhs0 ++ ")::" ++ cast, tokens1.drop 1)
      else
        (lhs0 ++ "::" ++ cast, tokens1.drop 1)
    else (lhs0, tokens1)
  let lhs := step2.1
  let tokens2 := step2.2
  { pschema := res.rschema
    prelation := (res.rrelation.orElse (fun _ => res.ralias)).orElse
      (fun _ => some source.name)
    field := field
    pathElements := pathElements
    path := path
    lhs := lhs
    jsonElements := jsonElements
    remainder :=
      if tokens2.length > 0 then
        some (toLowerStr (String.intercalate " " tokens2))
      else none
    isJSON := pathShape.length > 0 }

/-- The four value mutators of the operations module (embedded in
statement/delete.js lines 56-232), named rather than stored as closures. -/
inductive Mutator where
  | equality
  | between
  | isOp
  | literalize

/-- An entry of the operations map (delete.js lines 180-222): the SQL
operator and the optional mutator. -/
structure Appended where
  operator : String
  mutator : Option Mutator := none

/-- The operations map (delete.js lines 180-222 and the lookup at 224-226).
Keys are the lower-cased remainder strings of a criteria key. -/
def ops : String → Option Appended
  | "=" => some ⟨"=", some .equality⟩
  | "!" => some ⟨"<>", some .equality⟩
  | ">" => some ⟨">", none⟩
  | "<" => some ⟨"<", none⟩
  | ">=" => some ⟨">=", none⟩
  | "<=" => some ⟨"<=", none⟩
  | "!=" => some ⟨"<>", some .equality⟩
  | "<>" => some ⟨"<>", some .equality⟩
  | "between" => some ⟨"BETWEEN", some .between⟩
  | "@>" => some ⟨"@>", some .literalize⟩
  | "<@" => some ⟨"<@", some .literalize⟩
  | "&&" => some ⟨"&&", some .literalize⟩
  | "?" => some ⟨"?", none⟩
  | "?|" => some ⟨"?|", some .literalize⟩
  | "?&" => some ⟨"?&", some .literalize⟩
  | "@?" => some ⟨"@?", none⟩
  | "@@" => some ⟨"@@", none⟩
  | "~~" => some ⟨"LIKE", none⟩
  | "like" => some ⟨"LIKE", none⟩
  | "!~~" => some ⟨"NOT LIKE", none⟩
  | "not like" => some ⟨"NOT LIKE", none⟩
  | "~~*" => some ⟨"ILIKE", none⟩
  | "ilike" => some ⟨"ILIKE", none⟩
  | "!~~*" => some ⟨"NOT ILIKE", none⟩
  | "not ilike" => some ⟨"NOT ILIKE", none⟩
  | "similar to" => some ⟨"SIMILAR TO", none⟩
  | "not similar to" => some ⟨"NOT SIMILAR TO", none⟩
  | "~" => some ⟨"~", none⟩
  | "!~" => some ⟨"!~", none⟩
  | "~*" => some ⟨"~*", none⟩
  | "!~*" => some ⟨"!~*", none⟩
  | "is" => some ⟨"IS", some .isOp⟩
  | "is not" => some ⟨"IS NOT", some .isOp⟩
  | "is distinct from" => some ⟨"IS DISTINCT FROM", none⟩
  | "is not distinct from" => some ⟨"IS NOT DISTINCT FROM", none⟩
  | _ => none

/-- `condition.value` in flight: mutators overwrite the JS value with the
SQL right-hand-side text; until then the original value is kept. -/
inductive CondVal where
  | js (v : JSValue)
  | sql (s : String)

/-- How `condition.value` prints when interpolated into the final predicate
text (readable.js line 373). -/
def renderCondVal : CondVal → String
  | .js v => displayValue v
  | .sql s => s

/-- The condition object produced by `parseKey.withAppendix`
(parse-key.js lines 259-275) and threaded through the mutators. -/
structure Condition where
  lhs : String
  isJSON : Bool
  operator : String
  mutator : Option Mutator
  value : CondVal
  offset : Nat
  params : List JSValue

/-- The operation looked up for a key's remainder, with the default `=`
fallback (parse-key.js lines 266-270). -/
def appendedFor (key : String) (source : Readable) : Appended :=
  match (parseKeyF key source).remainder with
  | some r => (ops r).getD ⟨"=", some .equality⟩
  | none => ⟨"=", some .equality⟩

/-- `parseKey.withAppendix` (parse-key.js lines 259-275): parse the key and
attach offset, value, empty params and the looked-up operation. -/
def withAppendix (key : String) (source : Readable) (value : JSValue)
    (offset : Nat) : Condition :=
  let p := parseKeyF key source
  let appended := appendedFor key source
  { lhs := p.lhs
    isJSON := p.isJSON
    operator := appended.operator
    mutator := appended.mutator
    value := .js value
    offset := offset
    params := [] }

/-- `castTimestamp` (delete.js lines 60-66): `::timestamptz` for `Date`
values, nothing otherwise. -/
def castTimestamp (v : JSValue) : String :=
  if isDate v then "::timestamptz" else ""

/-- `castTimestamp` applied to a possibly-missing array bound
(`value[0]` on a too-short JS array is `undefined`, which is not a date). -/
def castTimestampOpt : Option JSValue → String
  | some v => castTimestamp v
  | none => ""

/-- `buildIs` (delete.js lines 111-119): switch the operator to `IS` /
`IS NOT`, leaving the value to be interpolated literally. -/
def buildIs (c : Condition) : Condition :=
  if c.operator = "=" ∨ c.operator = "IS" then { c with operator := "IS" }
  else { c with operator := "IS NOT" }

/-- The placeholder list of an IN clause (delete.js line 98): one `$n` per
element starting at the condition's offset, each with a timestamp cast when
the element is a `Date`. -/
def inListRender (offset : Nat) : List JSValue → List String
  | [] => []
  | v :: rest => ("$" ++ natStr offset ++ castTimestamp v)
      :: inListRender (offset + 1) rest

/-- `buildIn` (delete.js lines 88-103): an empty array becomes
`ANY ('{}')` / `ALL ('{}')` with no parameter; a non-empty array switches
the operator to `IN` / `NOT IN`, renders one placeholder per element and
appends the elements to the parameters. -/
def buildIn (c : Condition) (elems : List JSValue) : Condition :=
  if elems.length = 0 then
    { c with value := .sql (if c.operator = "=" then "ANY (\x27\x7b\x7d\x27)"
                            else "ALL (\x27\x7b\x7d\x27)") }
  else
    { c with operator := if c.operator = "=" then "IN" else "NOT IN"
             params := c.params ++ elems
             value := .sql ("(" ++
               joinSep "," (inListRender c.offset elems) ++ ")")
             offset := c.offset + elems.length }

/-- `buildBetween` (delete.js lines 74-80): `condition.params` becomes the
value itself (JS `concat` flattens an array value one level), the rhs is
`$n AND $n+1` with a timestamp cast per bound, and the offset advances by
two. No arity check is performed. -/
def buildBetween (c : Condition) (v : JSValue) : Condition :=
  let asParams : List JSValue := match v with
    | .varr l => l
    | other => [other]
  let bound0 : Option JSValue := match v with
    | .varr l => l.head?
    | _ => none
  let bound1 : Option JSValue := match v with
    | .varr l => (l.drop 1).head?
    | _ => none
  { c with params := asParams
           value := .sql ("$" ++ natStr c.offset ++ castTimestampOpt bound0
             ++ " AND $" ++ natStr (c.offset + 1) ++ castTimestampOpt bound1)
           offset := c.offset + 2 }

/-- `equality` (delete.js lines 128-140): null/boolean → `buildIs`, array →
`buildIn`, otherwise one pushed parameter and a `$n` placeholder (with a
timestamp cast for `Date` values). -/
def equalityMut (c : Condition) (v : JSValue) : Condition :=
  match v with
  | .vnull => buildIs c
  | .vbool b => buildIs { c with value := .js (.vbool b) }
  | .varr l => buildIn c l
  | other =>
    { c with params := c.params ++ [other]
             value := .sql ("$" ++ natStr c.offset ++ castTimestamp other) }

/-- The character class of delete.js line 151
(`/[,{}\s\\"]/`) triggering quoting inside an array literal. -/
def needsQuoting (s : String) : Bool :=
  s = "" || s = "null" ||
    s.data.any (fun c => c = ',' || c = '\x7b' || c = '\x7d' || isWs c ||
      c = '\\' || c = '"')

/-- delete.js line 152: escape backslashes and double quotes. -/
def escapeElem (s : String) : String :=
  String.mk (s.data.foldr
    (fun c acc => if c = '\\' || c = '"' then '\\' :: c :: acc else c :: acc)
    [])

/-- `literalizeArray` (delete.js lines 148-168): arrays are folded into a
single `{...}` literal parameter with quoting/escaping of problematic string
elements; other values are pushed as-is. Either way the rhs is a single
placeholder. -/
def literalizeArray (c : Condition) (v : JSValue) : Condition :=
  match v with
  | .varr l =>
    let sanitized := l.map (fun e =>
      match e with
      | .vstr s => if needsQuoting s then "\"" ++ escapeElem s ++ "\"" else s
      | .vnull => "null"
      | other => displayValue other)
    { c with params := c.params ++
        [.vstr ("\x7b" ++ String.intercalate "," sanitized ++ "\x7d")]
             value := .sql ("$" ++ natStr c.offset ++ castTimestamp v) }
  | other =>
    { c with params := c.params ++ [other]
             value := .sql ("$" ++ natStr c.offset ++ castTimestamp other) }

/-- The `kind` symbol steering predicate compilation (readable.js lines
46-48): `forWhere`, `forJoin` or `forDoc`. -/
inductive Kind where
  | forWhere
  | forJoin
  | forDoc
deriving DecidableEq

mutual

/-- A criteria object (a JS plain object in document order). `leafE` is an
ordinary key/value entry; `orE` / `andE` are entries under an `'or'`/`'$or'`
resp. `'and'`/`'$and'` key, whose value is an array of nested criteria
objects (readable.js lines 301 and 308). -/
inductive Crit where
  | cnil : Crit
  | leafE (key : String) (v : JSValue) (rest : Crit) : Crit
  | orE (subs : CritList) (rest : Crit) : Crit
  | andE (subs : CritList) (rest : Crit) : Crit

/-- An array of criteria objects (the value of an `or`/`and` entry). -/
inductive CritList where
  | lnil : CritList
  | lcons (c : Crit) (rest : CritList) : CritList

end

/-- The accumulator threaded by `conjoin`/`disjoin` (readable.js lines
281-285 and 377-381): predicate fragments, parameters and the base offset. -/
structure PredAcc where
  predicates : List String
  params : List JSValue
  offset : Nat

/-- Modelled from the spec: lib/statement/document-predicate required at
readable.js line 7 is not under src/. Document mode (spec §4.3) prefixes
keys with `body.` (already done by the caller) and serializes values to
JSON text; beyond that the spec gives no reconstructible detail, so the
condition is passed through unchanged. No settled claim exercises a
document-mode leaf. -/
def documentPredicate (c : Condition) (_key : String) : Condition := c

/-- Append a finished condition to the accumulator (readable.js lines
373-374): interpolate `lhs operator value` and concatenate the params. -/
def pushCond (acc : PredAcc) (c : Condition) : PredAcc :=
  { acc with
      predicates := acc.predicates ++
        [c.lhs ++ " " ++ c.operator ++ " " ++ renderCondVal c.value]
      params := acc.params ++ c.params }

/-- Stringification and mutator dispatch for a leaf condition (readable.js
lines 358-370): JSON conditions serialize truthy values first; then the
operation's mutator runs, or a truthy value is pushed as a single `$n`
parameter, or a falsy value is left to be interpolated literally. -/
def applyMutators (c : Condition) (v : JSValue) : Condition :=
  let v1 : JSValue :=
    if c.isJSON ∧ jsTruthy v then .vstr (jsonStringify v) else v
  let c1 := { c with value := CondVal.js v1 }
  match c.mutator with
  | some .equality => equalityMut c1 v1
  | some .between => buildBetween c1 v1
  | some .isOp => buildIs c1
  | some .literalize => literalizeArray c1 v1
  | none =>
    if jsTruthy v1 then
      { c1 with params := c1.params ++ [v1]
                value := .sql ("$" ++ natStr c1.offset) }
    else c1

/-- One ordinary criteria entry inside `conjoin` (readable.js lines
328-376): build the condition at the running offset; in document mode run
it through `documentPredicate`; in join mode a string value naming a column
of the compound short-circuits to an `lhs = column` predicate with no
parameter; otherwise apply the mutators and push. -/
def conjoinLeaf (src : Readable) (kind : Kind) (jarg : String)
    (key : String) (v : JSValue) (acc : PredAcc) : PredAcc :=
  let name := match kind with
    | .forDoc => "body." ++ key
    | .forJoin => jarg ++ "." ++ key
    | .forWhere => key
  let cond0 := withAppendix name src v (acc.offset + acc.params.length + 1)
  match kind, v with
  | .forDoc, _ => pushCond acc (documentPredicate cond0 key)
  | .forJoin, .vstr s =>
    let sourceKey := parseKeyF s src
    if src.columns.any (fun c =>
        c.fullName == sourceKey.path && sourceKey.remainder == none) then
      { acc with predicates := acc.predicates ++
          [cond0.lhs ++ " = " ++ sourceKey.lhs] }
    else pushCond acc (applyMutators cond0 v)
  | _, _ => pushCond acc (applyMutators cond0 v)

mutual

/-- `Readable.prototype.conjoin` (readable.js lines 297-382) as a fold over
the entries of a criteria object, threading the accumulator left to right. -/
def conjoinGo (src : Readable) (kind : Kind) (jarg : String) :
    Crit → PredAcc → PredAcc
  | .cnil, acc => acc
  | .leafE k v rest, acc =>
    conjoinGo src kind jarg rest (conjoinLeaf src kind jarg k v acc)
  | .orE subs rest, acc =>
    let d := disjoinGo src kind jarg subs
      ⟨[], [], acc.offset + acc.params.length⟩
    conjoinGo src kind jarg rest
      { acc with
          params := acc.params ++ d.params
          predicates := acc.predicates ++
            ["(" ++ joinSep " OR " d.predicates ++ ")"] }
  | .andE subs rest, acc =>
    let r := andGo src kind jarg subs acc []
    conjoinGo src kind jarg rest
      { r.1 with predicates := r.1.predicates ++
          ["(" ++ joinSep " AND " r.2 ++ ")"] }

/-- `Readable.prototype.disjoin` (readable.js lines 270-286): each member of
an `or` array is built as a conjunction at the running offset and its
parenthesized predicate collected for the `OR` join. -/
def disjoinGo (src : Readable) (kind : Kind) (jarg : String) :
    CritList → PredAcc → PredAcc
  | .lnil, acc => acc
  | .lcons c rest, acc =>
    let conj := conjoinGo src kind jarg c
      ⟨[], [], acc.offset + acc.params.length⟩
    disjoinGo src kind jarg rest
      { acc with
          params := acc.params ++ conj.params
          predicates := acc.predicates ++
            ["(" ++ joinSep " AND " conj.predicates ++ ")"] }

/-- The `and` branch of `conjoin` (readable.js lines 308-325): members are
conjoined against the outer accumulator's offset and params while their
parenthesized predicates are collected separately. -/
def andGo (src : Readable) (kind : Kind) (jarg : String) :
    CritList → PredAcc → List String → PredAcc × List String
  | .lnil, acc, preds => (acc, preds)
  | .lcons c rest, acc, preds =>
    let inner := conjoinGo src kind jarg c
      ⟨[], [], acc.offset + acc.params.length⟩
    andGo src kind jarg rest
      { acc with params := acc.params ++ inner.params }
      (preds ++ ["(" ++ joinSep " AND " inner.predicates ++ ")"])

end

/-- `conjoin` entered with a fresh accumulator at the given offset
(readable.js lines 377-381). -/
def conjoin (src : Readable) (kind : Kind) (jarg : String) (c : Crit)
    (offset : Nat) : PredAcc :=
  conjoinGo src kind jarg c ⟨[], [], offset⟩

/-- A compiled predicate: text plus ordered parameter list. -/
structure PredResult where
  predicate : String
  params : List JSValue

/-- The criteria argument accepted by `Readable.prototype.predicate`: a
plain criteria object, or a prebuilt `{conditions, params}` object with an
optional nested `where` criteria object and `isDocument` flag
(readable.js lines 408-430). -/
inductive CritObj where
  | crit (c : Crit) : CritObj
  | prebuilt (conditions : String) (params : List JSValue)
      (whereC : Option Crit) (isDocument : Option Bool) : CritObj

/-- `predicate` restricted to a plain criteria object: empty compiles to
`TRUE` with no parameters, anything else is conjoined (readable.js lines
400-406 and 432-436). -/
def predicateCrit (src : Readable) : Crit → Nat → Kind → String → PredResult
  | .cnil, _, _, _ => ⟨"TRUE", []⟩
  | c, offset, kind, jarg =>
    let a := conjoin src kind jarg c offset
    ⟨joinSep " AND " a.predicates, a.params⟩

/-- `Readable.prototype.predicate` (readable.js lines 400-437): empty plain
objects compile to `TRUE`; `{conditions, params}` objects pass through,
ANDing in a compiled nested `where` (at offset `params.length`, in document
mode when `isDocument` is set truthy) when one is present and non-empty. -/
def predicateF (src : Readable) (criteria : CritObj) (offset : Nat)
    (kind : Kind) (jarg : String := "") : PredResult :=
  match criteria with
  | .crit c => predicateCrit src c offset kind jarg
  | .prebuilt conditions params whereC isDocument =>
    match whereC with
    | some (Crit.leafE k v r) =>
      let innerKind := match isDocument with
        | some b => if b then Kind.forDoc else Kind.forWhere
        | none => kind
      let subWhere := predicateCrit src (Crit.leafE k v r) params.length
        innerKind ""
      ⟨conditions ++ " AND " ++ subWhere.predicate, params ++ subWhere.params⟩
    | some (Crit.orE s r) =>
      let innerKind := match isDocument with
        | some b => if b then Kind.forDoc else Kind.forWhere
        | none => kind
      let subWhere := predicateCrit src (Crit.orE s r) params.length
        innerKind ""
      ⟨conditions ++ " AND " ++ subWhere.predicate, params ++ subWhere.params⟩
    | some (Crit.andE s r) =>
      let innerKind := match isDocument with
        | some b => if b then Kind.forDoc else Kind.forWhere
        | none => kind
      let subWhere := predicateCrit src (Crit.andE s r) params.length
        innerKind ""
      ⟨conditions ++ " AND " ++ subWhere.predicate, params ++ subWhere.params⟩
    | _ => ⟨conditions, params⟩

/-- The keys of a criteria object in order, for `isPkSearch`. An `or`/`and`
entry contributes its literal key; the model fixes the `$`-prefixed
spelling, which like the bare spelling never names a primary-key column in
the modelled relations. -/
def critKeys : Crit → List String
  | .cnil => []
  | .leafE k _ rest => k :: critKeys rest
  | .orE _ rest => "$or" :: critKeys rest
  | .andE _ rest => "$and" :: critKeys rest

/-- The keys of a `predicate` argument: prebuilt criteria are plain objects
whose keys are `conditions`, `params` and optionally `where` /
`isDocument`. -/
def critObjKeys : CritObj → List String
  | .crit c => critKeys c
  | .prebuilt _ _ w d =>
    ["conditions", "params"]
      ++ (match w with | some _ => ["where"] | none => [])
      ++ (match d with | some _ => ["isDocument"] | none => [])

/-- `Statement.prototype.isPkSearch` (statement/statement.js lines 38-44):
false without a primary key; otherwise every criteria key must resolve to a
primary-key column. -/
def isPkSearch (src : Readable) (criteria : CritObj) : Bool :=
  match src.pk with
  | none => false
  | some pks =>
    (critObjKeys criteria).all (fun k =>
      match (parseKeyF k src).field with
      | some f => pks.contains f
      | none => false)

/-- The criteria argument of `setCriteria`: `null`/`undefined`, a non-object
primitive, or a plain object. -/
inductive CriteriaArg where
  | cnull : CriteriaArg
  | prim (v : JSValue) : CriteriaArg
  | obj (c : CritObj) : CriteriaArg

/-- The outcome of `Statement.prototype.setCriteria`: the (possibly
converted) criteria, the (possibly forced) `single` flag, and the compiled
predicate and parameters. -/
structure StatementCore where
  criteria : CritObj
  single : Bool
  predicate : String
  params : List JSValue

/-- The tail of `setCriteria` once the criteria argument has been accepted
(statement/statement.js lines 76-98): join sources prepend their compiled
`on` parameters, document mode applies only to plain-object criteria that
are not primary-key searches, and the compiled predicate and parameters are
stored. -/
def setCriteriaFinish (src : Readable) (document : Bool) (arg : CriteriaArg)
    (criteria : CritObj) (single : Bool) (prepend : List JSValue) :
    StatementCore :=
  let prepend := if src.isJoin then
      prepend ++ src.joins.foldl (fun a j => a ++ j.onParams) []
    else prepend
  let kind := match arg with
    | .obj c => if document ∧ ¬ isPkSearch src c then Kind.forDoc
                else Kind.forWhere
    | _ => Kind.forWhere
  let pr := predicateF src criteria prepend.length kind
  { criteria := criteria
    single := single
    predicate := pr.predicate
    params := if prepend.length > 0 then prepend ++ pr.params
              else pr.params }

/-- `Statement.prototype.setCriteria` (statement/statement.js lines 53-99):
falsy criteria throw; a non-object primitive becomes an equality criteria
on the first primary-key column (throwing without a primary key) and forces
`single` for non-compound sources. -/
def setCriteria (src : Readable) (document : Bool) (single : Bool)
    (arg : CriteriaArg) (prepend : List JSValue := []) :
    Except String StatementCore :=
  let truthy := match arg with
    | .cnull => false
    | .prim v => jsTruthy v
    | .obj _ => true
  if !truthy then
    .error "Criteria cannot be null or undefined. Pass \x7b\x7d to operate on all rows."
  else
    match arg with
    | .cnull =>
      .error "Criteria cannot be null or undefined. Pass \x7b\x7d to operate on all rows."
    | .prim v =>
      match src.pk with
      | none =>
        .error (delimitedFullName src ++ " doesn\x27t have a primary key.")
      | some pks =>
        .ok (setCriteriaFinish src document arg
          (CritObj.crit (.leafE (pks.headD "undefined") v .cnil))
          (if src.isJoin then single else true) prepend)
    | .obj c => .ok (setCriteriaFinish src document arg c single prepend)

/-- An `order` option entry (select.js lines 133-170):
field or raw expression, direction, nulls placement, explicit cast type and
keyset `last` value; `Option` models an absent property. -/
structure OrderEntry where
  field : Option String := none
  expr : Option String := none
  direction : Option String := none
  nulls : Option String := none
  cast : Option String := none
  last : Option JSValue := none

/-- The `fields` Select option: absent, an array of field names, or a map
of aliases to field names (values are JS values; `*: true` marks the
wildcard). -/
inductive FieldsOpt where
  | absent : FieldsOpt
  | farr (l : List String) : FieldsOpt
  | fmap (m : List (String × JSValue)) : FieldsOpt

/-- A normalized `lock` option value (select.js lines 178-201). -/
structure LockOpt where
  strength : String
  lockedRows : Option String := none

/-- The Select options consumed by the modelled constructor
(select.js lines 16-56 plus the inherited statement options). An `Option`
field models presence of the property (`hasOwnProperty`). -/
structure SelectOptions where
  distinct : Bool := false
  fields : FieldsOpt := .absent
  exprs : Option (List (String × String)) := none
  order : Option (List OrderEntry) := none
  orderBody : Bool := false
  offset : Option JSValue := none
  limit : Option JSValue := none
  pageLength : Option JSValue := none
  forUpdate : Option Bool := none
  forShare : Option Bool := none
  lock : Option LockOpt := none
  document : Bool := false
  single : Bool := false
  only : Bool := false

/-- `Select.prototype.buildOrderExpression` (select.js lines 151-170):
a raw expression wins; in body mode the field traverses the document body;
otherwise the field goes through the key resolver (with as-text JSON
operators forced by an explicit cast type); a cast type wraps the result.
Throws when neither field nor expr is given. -/
def buildOrderExpression (src : Readable) (o : OrderEntry)
    (useBody : Bool := false) : Except String String := do
  let jsonAsText := o.cast.isSome
  let field ←
    match o.expr with
    | some e => pure e
    | none =>
      if useBody then
        pure ((quote "body") ++ (if jsonAsText then "->>" else "->")
          ++ "\x27" ++ optTok o.field ++ "\x27")
      else
        match o.field with
        | some f => pure (parseKeyF f src jsonAsText).lhs
        | none => .error "Missing order field or expr."
  match o.cast with
  | some ty => pure ("(" ++ field ++ ")::" ++ ty)
  | none => pure field

/-- One step of the ORDER BY reduce (select.js lines 24-31): the entry's
expression plus its direction and nulls suffixes. -/
def buildOrderListGo (src : Readable) (orderBody : Bool) :
    List OrderEntry → List String → Except String (List String)
  | [], acc => .ok acc
  | o :: rest, acc =>
    let dir := match o.direction with
      | some d => if toLowerStr d = "desc" then " DESC" else " ASC"
      | none => " ASC"
    let nulls := match o.nulls with
      | some n => " NULLS " ++ (if n = "first" then "FIRST" else "LAST")
      | none => ""
    match buildOrderExpression src o orderBody with
    | .error e => .error e
    | .ok e => buildOrderListGo src orderBody rest (acc ++ [e ++ dir ++ nulls])

/-- The ORDER BY list built in the Select constructor (select.js lines
24-31): a reduce over the order entries; a missing `order` option reduces
over nothing. -/
def buildOrderList (src : Readable) (order : Option (List OrderEntry))
    (orderBody : Bool) : Except String (List String) :=
  match order with
  | none => .ok []
  | some entries => buildOrderListGo src orderBody entries []

/-- `Select.prototype.parseLock` (select.js lines 178-201): more than one
of `forUpdate`, `forShare` and `lock` present fails; the legacy flags
normalize to a strength, otherwise the `lock` object passes through. -/
def parseLock (opts : SelectOptions) : Except String (Option LockOpt) := do
  let cnt := [opts.forShare.isSome, opts.forUpdate.isSome,
    opts.lock.isSome].count true
  if cnt > 1 then
    .error "The \"forUpdate\", \"forShare\", and \"lock\" options are mutually exclusive"
  else if opts.forUpdate = some true then
    pure (some { strength := "UPDATE" })
  else if opts.forShare = some true then
    pure (some { strength := "SHARE" })
  else
    pure opts.lock

/-- JS `mapped.indexOf(field.name) > -1` where `mapped` holds the values of
the fields map: a string column name only ever equals a string value. -/
def valuesContainStr (vals : List JSValue) (s : String) : Bool :=
  vals.any (fun v => match v with | .vstr t => t = s | _ => false)

/-- JS `map[k] = v` on an object kept as an ordered association list:
overwrite in place or append. -/
def objSet (m : List (String × JSValue)) (k : String) (v : JSValue) :
    List (String × JSValue) :=
  if m.any (fun p => p.1 == k) then
    m.map (fun p => if p.1 == k then (k, v) else p)
  else m ++ [(k, v)]

/-- JS template coercion of a fields-map value to the field name. -/
def fieldStrOf : JSValue → String
  | .vstr s => s
  | v => displayValue v

/-- `Select.prototype.buildSelectList` (select.js lines 73-131): expand the
`*` wildcard with all not-yet-aliased columns, render each field (through
the key resolver; in document mode as a body traversal aliased by field
name), append raw expressions, fall back to `*` (or the compound's aliased
columns) when nothing was supplied, error when fields/exprs were supplied
but empty, and prepend `"id"` for document-mode field queries. -/
def buildSelectList (src : Readable) (fields : FieldsOpt)
    (exprs : Option (List (String × String))) (document : Bool) :
    Except String (List String) := do
  let renamingFields := match fields with
    | .fmap _ => true
    | _ => false
  let fields : FieldsOpt := match fields with
    | .fmap m =>
      if (m.filter (fun p : String × JSValue => p.1 == "*")).any
          (fun p => jsTruthy p.2) then
        let mapped : List JSValue := m.map (fun p => p.2)
        let start : List (String × JSValue) :=
          m.filter (fun p => p.1 ≠ "*")
        FieldsOpt.fmap (src.columns.foldl
          (fun (acc : List (String × JSValue)) (c : Col) =>
            if valuesContainStr mapped c.name then acc
            else objSet acc c.name (.vstr c.name)) start)
      else .fmap m
    | f => f
  let entries : List (String × String) := match fields with
    | .absent => []
    | .farr l => l.map (fun f => ("", f))
    | .fmap m => m.map (fun p => (p.1, fieldStrOf p.2))
  let exprList : List String := match exprs with
    | some es => es.map (fun p => p.2 ++ " AS " ++ quote p.1)
    | none => []
  let selectList : List String :=
    entries.map (fun p =>
      if document then
        (parseKeyF ("body." ++ p.2) src).lhs ++ " AS " ++ quote p.2
      else
        let lhs := (parseKeyF p.2 src).lhs
        if !renamingFields || lhs = quote p.1 then lhs
        else lhs ++ " AS " ++ quote p.1) ++ exprList
  if selectList.length = 0 then
    let fieldsFalsy : Bool := match fields with
      | .absent => true
      | _ => false
    if fieldsFalsy && exprs.isNone then
      if src.isJoin then
        pure (src.columns.map (fun c =>
          c.fullName ++ " AS " ++ quote (optTok c.colAlias)))
      else
        pure ["*"]
    else
      .error "At least one of fields or exprs, if supplied, must define a field or expression to select."
  else if document && (match fields with
      | FieldsOpt.absent => false
      | _ => true) then
    pure (quote "id" :: selectList)
  else
    pure selectList

/-- The compiled `Select` statement (select.js constructor, lines 16-56):
everything `format` needs. -/
structure SelectState where
  source : Readable
  single : Bool
  document : Bool
  only : Bool
  distinct : Bool
  selectList : List String
  order : List String
  offsetOpt : Option JSValue
  limit : Option JSValue
  pageLength : Option JSValue
  lock : Option LockOpt
  pagination : Option String
  predicate : String
  params : List JSValue

/-- `options.order.map(o => this.buildOrderExpression(o))` (select.js line
48): the pagination column expressions, failing at the first entry without
a field or expression. -/
def orderExprList (src : Readable) : List OrderEntry →
    Except String (List String)
  | [] => .ok []
  | o :: rest =>
    match buildOrderExpression src o with
    | .error e => .error e
    | .ok s =>
      match orderExprList src rest with
      | .error e => .error e
      | .ok l => .ok (s :: l)

/-- The keyset-pagination block of the `Select` constructor (select.js
lines 37-55): with a truthy `pageLength` an order directive is required,
offset/limit are rejected, an empty order list faults on the JS
`hasOwnProperty` probe of `order[0]`, and when the leading order entry
carries a `last` value a row-value comparison is compiled whose
placeholders follow all parameters so far (`idx + this.params.length + 1`),
appending the `last` values as the final parameters. -/
def mkSelectPage (src : Readable) (opts : SelectOptions)
    (core : StatementCore) (base : SelectState) :
    Except String SelectState :=
  let pageTruthy := match opts.pageLength with
    | some v => jsTruthy v
    | none => false
  if pageTruthy then
    match opts.order with
    | none =>
      .error "Keyset paging with pageLength requires an explicit order directive"
    | some entries =>
      if opts.offset.isSome ∨ opts.limit.isSome then
        .error "Keyset paging cannot be used with offset and limit"
      else
        match entries with
        | [] => .error "TypeError: Cannot convert undefined or null to object"
        | e0 :: es =>
          if e0.last.isSome then
            match orderExprList src (e0 :: es) with
            | .error e => .error e
            | .ok colsL =>
              .ok { base with
                pagination := some ("(" ++ joinSep "," colsL ++ ") "
                  ++ (match e0.direction with
                      | some d => if toLowerStr d = "desc" then "<" else ">"
                      | none => ">")
                  ++ " (" ++ joinSep ","
                      ((List.range (e0 :: es).length).map (fun i =>
                        "$" ++ natStr (i + core.params.length + 1))) ++ ")")
                params := core.params
                  ++ (e0 :: es).map (fun o => o.last.getD .vundef) }
          else
            .ok base
  else
    .ok base

/-- The `Select` constructor (select.js lines 16-56): statement flags, the
criteria (via `setCriteria`), the select list, the ORDER BY list, paging
options and the lock, followed by the keyset-pagination block. -/
def mkSelect (src : Readable) (criteria : CriteriaArg)
    (opts : SelectOptions) : Except String SelectState :=
  match setCriteria src opts.document opts.single criteria [] with
  | .error e => .error e
  | .ok core =>
    match buildSelectList src opts.fields opts.exprs opts.document with
    | .error e => .error e
    | .ok selectList =>
      match buildOrderList src opts.order opts.orderBody with
      | .error e => .error e
      | .ok order =>
        match parseLock opts with
        | .error e => .error e
        | .ok lock =>
          mkSelectPage src opts core
            { source := src
              single := core.single
              document := opts.document
              only := opts.only
              distinct := opts.distinct
              selectList := selectList
              order := order
              offsetOpt := opts.offset
              limit := opts.limit
              pageLength := opts.pageLength
              lock := lock
              pagination := none
              predicate := core.predicate
              params := core.params }

/-- `Select.prototype.format` (select.js lines 208-238): the fixed clause
order SELECT [DISTINCT] list FROM [ONLY] relation [JOINs] WHERE predicate
[AND pagination] [ORDER BY] [FOR lock] [FETCH FIRST n ROWS ONLY] [OFFSET]
[LIMIT 1 | LIMIT n]. -/
def formatSelect (s : SelectState) : String :=
  let sql := "SELECT "
  let sql := if s.distinct then sql ++ "DISTINCT " else sql
  let sql := sql ++ joinSep "," s.selectList ++ " FROM "
  let sql := if s.only then sql ++ "ONLY " else sql
  let sql := sql ++ delimitedFullName s.source ++ " "
  let sql := if s.source.isJoin then
      sql ++ joinSep "" (s.source.joins.map (fun j =>
        j.jtype ++ " JOIN " ++ j.target ++ " ON " ++ j.onPredicate ++ " "))
    else sql
  let sql := sql ++ "WHERE " ++ s.predicate
  let sql := match s.pagination with
    | some p => sql ++ " AND " ++ p
    | none => sql
  let sql := if s.order.length > 0 then
      sql ++ " ORDER BY " ++ joinSep "," s.order
    else sql
  let sql := match s.lock with
    | some l => sql ++ " FOR " ++ l.strength
    | none => sql
  let sql := match s.lock with
    | some l =>
      match l.lockedRows with
      | some r => if r ≠ "" then sql ++ " " ++ r else sql
      | none => sql
    | none => sql
  let sql := match s.pageLength with
    | some v => if jsTruthy v then
        sql ++ " FETCH FIRST " ++ displayValue v ++ " ROWS ONLY"
      else sql
    | none => sql
  let sql := match s.offsetOpt with
    | some v => if jsTruthy v then sql ++ " OFFSET " ++ displayValue v
      else sql
    | none => sql
  if s.single then sql ++ " LIMIT 1"
  else match s.limit with
    | some v => if jsTruthy v then sql ++ " LIMIT " ++ displayValue v else sql
    | none => sql

/-- Whether a foreign key's origin (referencing) side is the given
relation (readable.js lines 459 and 462). -/
def fkOriginIs (fk : Fk) (r : Readable) : Bool :=
  fk.origin_schema == r.schema && fk.origin_name == r.name

/-- `_.zipObject(keys, values)` as an ordered pair list: keys beyond the
value list pair with `undefined`. -/
def zipObjectPairs : List String → List String → List (String × String)
  | [], _ => []
  | k :: ks, [] => (k, "undefined") :: zipObjectPairs ks []
  | k :: ks, v :: vs => (k, v) :: zipObjectPairs ks vs

/-- JS `obj[k] = v` on an ordered association list: overwrite in place or
append (the accumulator object of `findCandidateJoinKeys`). -/
def upsertAssoc (m : List (String × List (String × String))) (k : String)
    (v : List (String × String)) : List (String × List (String × String)) :=
  if m.any (fun p => p.1 == k) then
    m.map (fun p => if p.1 == k then (k, v) else p)
  else m ++ [(k, v)]

/-- One reduction step of `findCandidateJoinKeys` (readable.js lines
454-474): a foreign key whose origin is the joined relation maps its origin
columns to the parent's alias-qualified dependent columns; one whose origin
is the parent maps its dependent columns to the parent's alias-qualified
origin columns; anything else is skipped. -/
def candidateStep (self parent : Readable) (parentAlias : String)
    (acc : List (String × List (String × String))) (fk : Fk) :
    List (String × List (String × String)) :=
  if fkOriginIs fk self then
    upsertAssoc acc fk.fk (zipObjectPairs fk.origin_columns
      (fk.dependent_columns.map (fun c => parentAlias ++ "." ++ c)))
  else if fkOriginIs fk parent then
    upsertAssoc acc fk.fk (zipObjectPairs fk.dependent_columns
      (fk.origin_columns.map (fun c => parentAlias ++ "." ++ c)))
  else acc

/-- `Readable.prototype.findCandidateJoinKeys` (readable.js lines 450-477):
fold the relation's and the parent's foreign keys into candidate join
mappings keyed by constraint name, standardized with the joined relation's
columns on the left. -/
def findCandidateJoinKeys (self parent : Readable) (parentAlias : String) :
    List (String × List (String × String)) :=
  (self.fks ++ parent.fks).foldl (candidateStep self parent parentAlias) []

/-- A derived `on` criteria object from a candidate mapping: ordinary
equality entries whose values are the parent's column references. -/
def critOfPairs : List (String × String) → Crit
  | [] => .cnil
  | (k, v) :: rest => .leafE k (.vstr v) (critOfPairs rest)

/-- The fallback `on` derivation of the join reducer (readable.js lines
588-598): an explicit mapping passes through; otherwise exactly one
candidate foreign key is used, zero demands an explicit mapping and more
than one is ambiguous. -/
def deriveJoinOn (onOpt : Option Crit) (displayName : String)
    (self parent : Readable) (parentAlias : String) : Except String Crit :=
  match onOpt with
  | some onC => .ok onC
  | none =>
    match findCandidateJoinKeys self parent parentAlias with
    | [c] => .ok (critOfPairs c.2)
    | [] => .error ("An explicit \x27on\x27 mapping is required for "
        ++ displayName ++ ".")
    | _ => .error ("Ambiguous foreign keys for " ++ displayName
        ++ ". Define join keys explicitly.")

mutual

/-- A node of a join definition (readable.js lines 488-507): the optional
explicit `relation` path (when the key is an alias), join `type`, explicit
`on` criteria, explicit `pk`, the `omit` flag and nested child nodes. -/
inductive JoinDefNode where
  | mk (relationOpt : Option String) (typeOpt : Option String)
       (onOpt : Option Crit) (pkOpt : Option (List String)) (omitFlag : Bool)
       (children : JoinDefEntries) : JoinDefNode

/-- The entries of a join definition object, in document order. -/
inductive JoinDefEntries where
  | jnil : JoinDefEntries
  | jcons (key : String) (node : JoinDefNode) (rest : JoinDefEntries) :
      JoinDefEntries

end

/-- A standardized member of a compound relation's join list (the node
accumulated at readable.js lines 601-631 and collected pre-order at 645). -/
structure JoinRel where
  jralias : String
  jrrelation : Option String
  jrschema : Option String
  jrtype : String
  jron : Crit
  jreadable : Readable

/-- The database object as the join reducer resolves entities against it
(`_.get(this.db, _.compact([schema, relation]))`): relations addressable by
an optional schema qualifier and a name. -/
def dbLookup (db : List ((Option String × String) × Readable))
    (schema : Option String) (name : String) : Option Readable :=
  (db.find? (fun e => e.1 == (schema, name))).map (fun e => e.2)

mutual

/-- One node of the join reducer (readable.js lines 535-662): lex the
relation path, resolve the readable (else: unknown database entity), reject
a repeated alias, require a primary key somewhere, record the alias as
seen, derive the `on` predicate, recurse into child nodes and emit this
node followed by its descendants (pre-order). The decomposition-schema
bookkeeping (lines 567-584), the column accumulation (lines 646-654) and
the cache/proxy plumbing (lines 497-501 and 677-737) build no join
structure and throw nothing, and are not modelled. -/
def joinReduceNode (db : List ((Option String × String) × Readable))
    (key : String) (n : JoinDefNode) (parentR : Readable)
    (parentAlias : String) (seen : List String) :
    Except String (List JoinRel × List String) :=
  match n with
  | .mk relationOpt typeOpt onOpt pkOpt _omitFlag children =>
    let path := relationOpt.getD key
    let tokens := (lex path).tokens
    let relation := tokens.getLast?
    let schemaTok := tokens.dropLast.head?
    let jalias := if relationOpt.isSome then key
      else optTok relation
    match relation.bind (dbLookup db schemaTok) with
    | none =>
      .error ("Bad join definition: unknown database entity " ++ path ++ ".")
    | some readable =>
      if seen.contains jalias then
        .error ("Bad join definition: " ++ jalias ++ " is repeated.")
      else if pkOpt.isNone && readable.pk.isNone then
        .error ("Missing explicit pk in join definition for " ++ jalias ++ ".")
      else
        match deriveJoinOn onOpt path readable parentR parentAlias with
        | .error e => .error e
        | .ok onC =>
          match joinReduceEntries db children readable jalias
              (seen ++ [jalias]) with
          | .error e => .error e
          | .ok (childRels, seen2) =>
            .ok ({ jralias := jalias
                   jrrelation := relation
                   jrschema := schemaTok
                   jrtype := typeOpt.getD "INNER"
                   jron := onC
                   jreadable := readable } :: childRels, seen2)

/-- The fold of the join reducer over sibling definition entries, threading
the seen-alias list left to right (readable.js line 664 for the roots,
lines 601-621 for nested nodes). -/
def joinReduceEntries (db : List ((Option String × String) × Readable))
    (entries : JoinDefEntries) (parentR : Readable) (parentAlias : String)
    (seen : List String) : Except String (List JoinRel × List String) :=
  match entries with
  | .jnil => .ok ([], seen)
  | .jcons key node rest =>
    match joinReduceNode db key node parentR parentAlias seen with
    | .error e => .error e
    | .ok (nodeRels, seen1) =>
      match joinReduceEntries db rest parentR parentAlias seen1 with
      | .error e => .error e
      | .ok (restRels, seen2) => .ok (nodeRels ++ restRels, seen2)

end

/-- `Readable.prototype.join` restricted to building the standardized,
pre-order join list (readable.js lines 496-672): the seen-alias list starts
with the origin's name (line 510), top-level nodes join to the origin under
its delimited full name (line 591). -/
def joinCompile (db : List ((Option String × String) × Readable))
    (origin : Readable) (defs : JoinDefEntries) :
    Except String (List JoinRel) :=
  match joinReduceEntries db defs origin (delimitedFullName origin)
      [origin.name] with
  | .error e => .error e
  | .ok (rels, _) => .ok rels

/-! ## Placeholder extraction

`phExtract` reads the prepared-statement placeholder ordinals (`$n`) out of
a predicate text, in order of appearance. It is the formal reading of "the
predicate contains exactly the placeholders `$a` through `$b`". -/

/-- Scan characters, accumulating the digits of a `$`-introduced ordinal in
the state and flushing it at the first non-digit (or at the end). -/
def phAux : List Char → Option Nat → List Nat
  | [], none => []
  | [], some n => [n]
  | c :: cs, some n =>
    if c.isDigit then phAux cs (some (10 * n + (c.toNat - 48)))
    else n :: phAux cs (if c = '$' then some 0 else none)
  | c :: cs, none => phAux cs (if c = '$' then some 0 else none)

/-- The list of placeholder ordinals occurring in a string, left to right. -/
def phExtract (s : String) : List Nat := phAux s.data none

/-- No dollar sign occurs in the string. -/
def noDollarS (s : String) : Bool := s.data.all (fun c => c ≠ '$')

/-- Consecutive placeholder extraction spec of a piece list: the i-th piece
extracts exactly `[k + i]`. -/
def goodPieces : List String → Nat → Prop
  | [], _ => True
  | p :: rest, k => phExtract p = [k] ∧ goodPieces rest (k + 1)

/-- A criteria object consisting solely of ordinary (leaf) entries. -/
def leavesCrit : List (String × JSValue) → Crit
  | [] => .cnil
  | (k, v) :: rest => .leafE k v (leavesCrit rest)

/-- Values that are neither `null` nor booleans nor arrays: exactly the
values the equality mutator turns into a single pushed parameter. -/
def isScalarV : JSValue → Bool
  | .vnull => false
  | .vbool _ => false
  | .varr _ => false
  | _ => true

/-- Hypotheses making a criteria leaf a "one placeholder, one parameter"
equality comparison: its operation is the equality mutator and its compiled
lhs and operator are free of dollar signs (true of every ordinary column
reference), and its value is a scalar. -/
def eqLeafOK (src : Readable) (p : String × JSValue) : Prop :=
  (appendedFor p.1 src).mutator = some Mutator.equality ∧
  noDollarS (parseKeyF p.1 src).lhs = true ∧
  noDollarS (appendedFor p.1 src).operator = true ∧
  isScalarV p.2 = true

/-- `DecidableEq` for the mutator tags, for concrete-instance checking. -/
instance : DecidableEq Mutator := fun a b => by
  cases a <;> cases b <;> first
    | exact isTrue rfl
    | exact isFalse (fun h => Mutator.noConfusion h)

instance (src : Readable) (p : String × JSValue) :
    Decidable (eqLeafOK src p) := by
  unfold eqLeafOK
  infer_instance

/-- A plain relation used for concrete instances. -/
def relMytable : Readable :=
  { schema := "public"
    name := "mytable"
    currentSchema := "public"
    pk := some ["id"] }

/-- One join node's match test, in the code's per-node order: the first
token is a substring of the node's alias, or equals the node's relation
name, or the first two tokens equal the node's schema and relation. -/
def joinNodeMatches (j : JoinInfo) (t0 : String) (t1 : Option String) :
    Bool :=
  strContains j.jalias t0 || j.relation == t0
    || (j.jschema == some t0 && t1 == some j.relation)

/-- The token stripping a matching join node produces, by whichever of the
three per-node cases hit first (parse-key.js lines 150-167): the
alias-substring case keeps the token itself as the alias. -/
def joinNodeOutcome (j : JoinInfo) (t0 : String) (rest : List String)
    (ps : List Bool) : ResolveOut :=
  if strContains j.jalias t0 then
    { ralias := some t0, tokens := rest, pathShape := ps.drop 1 }
  else if j.relation = t0 then
    { ralias := some j.jalias, rrelation := some t0, tokens := rest,
      pathShape := ps.drop 1 }
  else
    { ralias := some j.jalias, rschema := some t0,
      rrelation := some j.relation, tokens := rest.drop 1,
      pathShape := ps.drop 2 }

/-- The compound-key resolution as the amended claim describes it: origin
name, then origin schema+name, then the *first join node in order* that
matches any of the three per-node cases (alias substring, relation name,
schema+name — tried in that order within each node), else the origin
fallback. -/
def resolveAmended (src : Readable) (tokens : List String)
    (ps : List Bool) : ResolveOut :=
  match tokens with
  | [] => { rschema := some src.schema, rrelation := some src.name,
            tokens := [], pathShape := ps }
  | t0 :: rest =>
    if src.name = t0 then
      { rrelation := some t0, tokens := rest, pathShape := ps.drop 1 }
    else if src.schema = t0 ∧ rest.head? = some src.name then
      { rschema := some t0, rrelation := some src.name,
        tokens := rest.drop 1, pathShape := ps.drop 2 }
    else
      match src.joins.find? (fun j => joinNodeMatches j t0 rest.head?) with
      | some j => joinNodeOutcome j t0 rest ps
      | none => { rschema := some src.schema, rrelation := some src.name,
                  tokens := t0 :: rest, pathShape := ps }

/-- The compound-key resolution as the original claim, read literally,
describes it: each of the six cases is exhausted across *all* join nodes
before the next case is tried (case 3 over every node, then case 4 over
every node, then case 5). -/
def resolveClaim (src : Readable) (tokens : List String) (ps : List Bool) :
    ResolveOut :=
  match tokens with
  | [] => { rschema := some src.schema, rrelation := some src.name,
            tokens := [], pathShape := ps }
  | t0 :: rest =>
    if src.name = t0 then
      { rrelation := some t0, tokens := rest, pathShape := ps.drop 1 }
    else if src.schema = t0 ∧ rest.head? = some src.name then
      { rschema := some t0, rrelation := some src.name,
        tokens := rest.drop 1, pathShape := ps.drop 2 }
    else
      match src.joins.find? (fun j => strContains j.jalias t0) with
      | some _ => { ralias := some t0, tokens := rest,
                    pathShape := ps.drop 1 }
      | none =>
        match src.joins.find? (fun j => j.relation == t0) with
        | some j => { ralias := some j.jalias, rrelation := some t0,
                      tokens := rest, pathShape := ps.drop 1 }
        | none =>
          match src.joins.find? (fun j =>
              j.jschema == some t0 && rest.head? == some j.relation) with
          | some j => { ralias := some j.jalias, rschema := some t0,
                        rrelation := some j.relation,
                        tokens := rest.drop 1, pathShape := ps.drop 2 }
          | none => { rschema := some src.schema,
                      rrelation := some src.name, tokens := t0 :: rest,
                      pathShape := ps }

/-- A compound relation exhibiting the precedence divergence: node `x`
joins relation `t`, node `t` joins relation `y`. -/
def cjx : Readable :=
  { schema := "public"
    name := "origin"
    currentSchema := "public"
    isJoin := true
    joins := [ { jalias := "x", relation := "t" },
               { jalias := "t", relation := "y" } ] }

/-- What it means for an entry of `findCandidateJoinKeys` to be a correctly
oriented candidate: it is named by a foreign key of one of the two
relations whose origin side is one of the two relations, with the joined
relation's columns on the left and the parent's alias-qualified columns on
the right, regardless of which side declared the key. -/
def candidateOK (self parent : Readable) (pa : String)
    (c : String × List (String × String)) : Prop :=
  ∃ fk, (fk ∈ self.fks ∨ fk ∈ parent.fks) ∧ c.1 = fk.fk ∧
    ((fkOriginIs fk self = true
        ∧ c.2 = zipObjectPairs fk.origin_columns
            (fk.dependent_columns.map (fun col => pa ++ "." ++ col)))
     ∨ (fkOriginIs fk self = false ∧ fkOriginIs fk parent = true
        ∧ c.2 = zipObjectPairs fk.dependent_columns
            (fk.origin_columns.map (fun col => pa ++ "." ++ col))))

/-- The spec's worked example: `users(id pk)` and
`posts(id pk, user_id fk→users.id)`. The foreign key hangs off the
referenced (dependent) relation `users`, with `posts` as its origin. -/
def fkPU : Fk :=
  { fk := "posts_user_id_fkey"
    origin_schema := "public"
    origin_name := "posts"
    origin_columns := ["user_id"]
    dependent_columns := ["id"] }

/-- A second foreign key from `posts` to `users`, making derivation
ambiguous. -/
def fkAuthor : Fk :=
  { fk := "posts_author_id_fkey"
    origin_schema := "public"
    origin_name := "posts"
    origin_columns := ["author_id"]
    dependent_columns := ["id"] }

/-- The `users` relation of the worked example. -/
def users : Readable :=
  { schema := "public"
    name := "users"
    currentSchema := "public"
    columns := [{ name := "id", fullName := "\"users\".\"id\"" }]
    pk := some ["id"]
    fks := [fkPU] }

/-- The `posts` relation of the worked example. -/
def posts : Readable :=
  { schema := "public"
    name := "posts"
    currentSchema := "public"
    columns := [{ name := "id", fullName := "\"posts\".\"id\"" },
                { name := "user_id", fullName := "\"posts\".\"user_id\"" }]
    pk := some ["id"] }

/-- A one-node join definition: `users.join('posts')`. -/
def defPosts : JoinDefEntries :=
  .jcons "posts" (.mk none none none none false .jnil) .jnil

/-- The database catalog for the worked example. -/
def db0 : List ((Option String × String) × Readable) :=
  [((none, "users"), users), ((none, "posts"), posts),
   ((some "public", "users"), users), ((some "public", "posts"), posts)]

/-! ### Keyset pagination (C5, C6) -/

/-- The keyset order directive of the running example: `created_at`
descending with a last-seen value. -/
def ord5 : OrderEntry :=
  { field := some "created_at"
    direction := some "desc"
    last := some (JSValue.vdate "T") }

/-- Select options enabling keyset pagination over `ord5`. -/
def opts5 : SelectOptions :=
  { order := some [ord5]
    pageLength := some (JSValue.vnum 25) }

/-- Select options with a truthy pageLength but no order directive. -/
def opts6 : SelectOptions :=
  { pageLength := some (JSValue.vnum 25) }

/-! ### Theorems -/

theorem strData_append (a b : String) : (a ++ b).data = a.data ++ b.data :=
  rfl

theorem phAux_noDollar (l : List Char) (h : ∀ c ∈ l, c ≠ '$')
    (rest : List Char) : phAux (l ++ rest) none = phAux rest none := by
  induction l with
  | nil => rfl
  | cons c cs ih =>
    have hc : c ≠ '$' := h c (by simp)
    simp only [List.cons_append, phAux, if_neg hc]
    exact ih (fun x hx => h x (by simp [hx])) 

theorem phAux_none_nil (l : List Char) (h : ∀ c ∈ l, c ≠ '$') :
    phAux l none = [] := by
  have := phAux_noDollar l h []
  simpa using this

theorem phAux_flush (t : List Char) (k : Nat)
    (hd : ∀ c, t.head? = some c → c.isDigit = false)
    (h : ∀ c ∈ t, c ≠ '$') : phAux t (some k) = [k] := by
  cases t with
  | nil => rfl
  | cons c cs =>
    have h1 : c.isDigit = false := hd c rfl
    have h2 : c ≠ '$' := h c (by simp)
    simp only [phAux, h1, Bool.false_eq_true, if_false, if_neg h2]
    rw [phAux_none_nil cs (fun x hx => h x (by simp [hx]))]

theorem digitChar_isDigit (d : Nat) (h : d < 10) :
    (digitChar d).isDigit = true := by
  interval_cases d <;> decide

theorem digitChar_toNat (d : Nat) (h : d < 10) :
    (digitChar d).toNat = 48 + d := by
  interval_cases d <;> decide

theorem phAux_digits (fuel : Nat) : ∀ (n a : Nat) (rest : List Char),
    n < fuel →
    phAux (natDigitsAux fuel n ++ rest) (some a)
      = phAux rest (some (a * 10 ^ (natDigitsAux fuel n).length + n)) := by
  induction fuel with
  | zero => intro n a rest h; exact absurd h (Nat.not_lt_zero n)
  | succ fuel ih =>
    intro n a rest h
    by_cases h10 : n < 10
    · simp only [natDigitsAux, if_pos h10, List.singleton_append,
        List.length_singleton, pow_one]
      simp only [phAux, digitChar_isDigit n h10, if_true,
        digitChar_toNat n h10]
      congr 2
      omega
    · simp only [natDigitsAux, if_neg h10, List.append_assoc,
        List.singleton_append, List.length_append, List.length_singleton]
      rw [ih (n / 10) a (digitChar (n % 10) :: rest) (by omega)]
      have hlt : n % 10 < 10 := Nat.mod_lt n (by omega)
      simp only [phAux, digitChar_isDigit _ hlt, if_true,
        digitChar_toNat _ hlt]
      congr 2
      rw [pow_succ, ← mul_assoc]
      generalize a * 10 ^ (natDigitsAux fuel (n / 10)).length = Y
      omega

theorem phAux_natStr (k : Nat) (rest : List Char) :
    phAux ((natStr k).data ++ rest) (some 0) = phAux rest (some k) := by
  have := phAux_digits (k + 1) k 0 rest (by omega)
  simpa [natStr] using this

theorem phAux_append (a : List Char) : ∀ (st : Option Nat) (b : List Char),
    (∀ c, b.head? = some c → c.isDigit = false) →
    phAux (a ++ b) st = phAux a st ++ phAux b none := by
  induction a with
  | nil =>
    intro st b hb
    cases st with
    | none => simp [phAux]
    | some n =>
      cases b with
      | nil => simp [phAux]
      | cons c cs =>
        have h1 : c.isDigit = false := hb c rfl
        simp [phAux, h1]
  | cons c cs ih =>
    intro st b hb
    cases st with
    | none =>
      simp only [List.cons_append, phAux]
      exact ih _ b hb
    | some n =>
      simp only [List.cons_append, phAux]
      by_cases hd : c.isDigit
      · simp [hd, ih _ b hb]
      · simp [hd, ih _ b hb]

theorem phExtract_piece (pre : List Char) (k : Nat) (tail : List Char)
    (hpre : ∀ c ∈ pre, c ≠ '$')
    (htail1 : ∀ c, tail.head? = some c → c.isDigit = false)
    (htail2 : ∀ c ∈ tail, c ≠ '$') :
    phAux (pre ++ '$' :: ((natStr k).data ++ tail)) none = [k] := by
  rw [phAux_noDollar pre hpre]
  simp only [phAux, reduceIte]
  rw [phAux_natStr]
  exact phAux_flush tail k htail1 htail2

theorem joinSep_extract (sep : String) (hsep : ∀ c ∈ sep.data, c ≠ '$')
    (hsephd : ∀ c, sep.data.head? = some c → c.isDigit = false)
    (hsepne : sep.data ≠ []) :
    ∀ (l : List String) (k : Nat), goodPieces l k →
      phExtract (joinSep sep l) = List.range' k l.length := by
  intro l
  induction l with
  | nil => intro k _; rfl
  | cons p rest ih =>
    intro k hg
    cases rest with
    | nil =>
      simpa [joinSep, List.range'] using hg.1
    | cons q qs =>
      have hx := ih (k + 1) hg.2
      show phExtract (p ++ sep ++ joinSep sep (q :: qs)) = _
      have hbhd : ∀ c, (sep.data ++ (joinSep sep (q :: qs)).data).head? = some c
          → c.isDigit = false := by
        intro c hc
        cases hs : sep.data with
        | nil => exact absurd hs hsepne
        | cons c0 cs0 =>
          rw [hs] at hc
          simp only [List.cons_append, List.head?_cons, Option.some.injEq] at hc
          subst hc
          exact hsephd c0 (by rw [hs]; rfl)
      calc phExtract (p ++ sep ++ joinSep sep (q :: qs))
          = phAux (p.data ++ (sep.data ++ (joinSep sep (q :: qs)).data)) none := by
            simp [phExtract, strData_append]
        _ = phAux p.data none ++ phAux (sep.data ++ (joinSep sep (q :: qs)).data) none := by
            rw [phAux_append p.data none _ hbhd]
        _ = phAux p.data none ++ phAux (joinSep sep (q :: qs)).data none := by
            rw [phAux_noDollar sep.data hsep]
        _ = [k] ++ List.range' (k + 1) (q :: qs).length := by
            have h1 : phAux p.data none = [k] := hg.1
            have h2 : phAux (joinSep sep (q :: qs)).data none
                = List.range' (k + 1) (q :: qs).length := hx
            rw [h1, h2]
        _ = List.range' k ((q :: qs).length + 1) := by
            rw [List.range'_succ]
            rfl

theorem noDollar_chars (s : String) (h : noDollarS s = true) :
    ∀ c ∈ s.data, c ≠ '$' := by
  simpa [noDollarS, List.all_eq_true] using h

theorem applyMutators_eq_scalar (c : Condition) (v : JSValue)
    (hm : c.mutator = some Mutator.equality) (hp : c.params = [])
    (hs : isScalarV v = true) :
    ∃ v1, isScalarV v1 = true ∧
      applyMutators c v
        = { c with
            value := CondVal.sql ("$" ++ natStr c.offset ++ castTimestamp v1)
            params := [v1] } := by
  unfold applyMutators
  by_cases hc : c.isJSON = true ∧ jsTruthy v = true
  · refine ⟨.vstr (jsonStringify v), rfl, ?_⟩
    simp only [hc.1, hc.2, and_self, if_true, hm]
    simp [equalityMut, hp]
  · refine ⟨v, hs, ?_⟩
    simp only [if_neg hc, hm]
    cases v with
    | vnull => simp [isScalarV] at hs
    | vbool b => simp [isScalarV] at hs
    | varr l => simp [isScalarV] at hs
    | vundef => simp [equalityMut, hp]
    | vnum n => simp [equalityMut, hp]
    | vstr s => simp [equalityMut, hp]
    | vdate t => simp [equalityMut, hp]

theorem conjoinLeaf_eq_scalar (src : Readable) (k : String) (v : JSValue)
    (ps : List String) (pr : List JSValue) (off : Nat)
    (h : eqLeafOK src (k, v)) :
    ∃ v1, isScalarV v1 = true ∧
      conjoinLeaf src .forWhere "" k v ⟨ps, pr, off⟩
        = ⟨ps ++ [(parseKeyF k src).lhs ++ " "
             ++ (appendedFor k src).operator ++ " "
             ++ ("$" ++ natStr (off + pr.length + 1) ++ castTimestamp v1)],
           pr ++ [v1], off⟩ := by
  have hm : (withAppendix k src v (off + pr.length + 1)).mutator
      = some Mutator.equality := h.1
  have hparams : (withAppendix k src v (off + pr.length + 1)).params = []
    := rfl
  obtain ⟨v1, hv1, happ⟩ := applyMutators_eq_scalar
    (withAppendix k src v (off + pr.length + 1)) v hm hparams h.2.2.2
  refine ⟨v1, hv1, ?_⟩
  show pushCond ⟨ps, pr, off⟩
      (applyMutators (withAppendix k src v (off + pr.length + 1)) v) = _
  rw [happ]
  simp [pushCond, withAppendix, renderCondVal]

theorem conjoin_leaves_go (src : Readable) (entries : List (String × JSValue)) :
    ∀ (ps : List String) (pr : List JSValue) (off : Nat),
      (∀ p ∈ entries, eqLeafOK src p) →
      ∃ pieces prms,
        conjoinGo src .forWhere "" (leavesCrit entries) ⟨ps, pr, off⟩
          = ⟨ps ++ pieces, pr ++ prms, off⟩ ∧
        pieces.length = entries.length ∧ prms.length = entries.length ∧
        goodPieces pieces (off + pr.length + 1) := by
  induction entries with
  | nil =>
    intro ps pr off _
    exact ⟨[], [], by simp [leavesCrit, conjoinGo], rfl, rfl, trivial⟩
  | cons p rest ih =>
    intro ps pr off h
    obtain ⟨k, v⟩ := p
    have hp := h (k, v) (by simp)
    obtain ⟨v1, hv1, hleaf⟩ := conjoinLeaf_eq_scalar src k v ps pr off hp
    have hstep : conjoinGo src .forWhere "" (leavesCrit ((k, v) :: rest))
        ⟨ps, pr, off⟩
        = conjoinGo src .forWhere "" (leavesCrit rest)
            (conjoinLeaf src .forWhere "" k v ⟨ps, pr, off⟩) := rfl
    set piece := (parseKeyF k src).lhs ++ " "
      ++ (appendedFor k src).operator ++ " "
      ++ ("$" ++ natStr (off + pr.length + 1) ++ castTimestamp v1) with hpc
    obtain ⟨pieces, prms, heq, hlen1, hlen2, hgood⟩ :=
      ih (ps ++ [piece]) (pr ++ [v1]) off (fun q hq => h q (by simp [hq]))
    refine ⟨piece :: pieces, v1 :: prms, ?_, by simp [hlen1], by simp [hlen2], ?_⟩
    · rw [hstep, hleaf, heq]
      simp
    · constructor
      · -- phExtract piece = [off + pr.length + 1]
        have hlhs := noDollar_chars _ hp.2.1
        have hop := noDollar_chars _ hp.2.2.1
        have hdata : piece.data
            = ((parseKeyF k src).lhs.data ++ ' '
                :: ((appendedFor k src).operator.data ++ [' ']))
              ++ '$' :: ((natStr (off + pr.length + 1)).data
                ++ (castTimestamp v1).data) := by
          simp [hpc, strData_append]
        show phAux piece.data none = _
        rw [hdata]
        apply phExtract_piece
        · intro c hc
          simp only [List.mem_append, List.mem_cons,
            List.not_mem_nil, or_false] at hc
          rcases hc with h1 | h2 | h3 | h4
          · exact hlhs c h1
          · subst h2; decide
          · exact hop c h3
          · subst h4; decide
        · intro c hc
          by_cases hd : isDate v1 = true
          · simp [castTimestamp, hd] at hc
            subst hc; decide
          · simp [castTimestamp, hd] at hc
        · intro c hc
          by_cases hd : isDate v1 = true
          · simp only [castTimestamp, hd, if_true] at hc
            fin_cases hc <;> decide
          · simp [castTimestamp, hd] at hc
      · have : off + (pr ++ [v1]).length + 1 = off + pr.length + 1 + 1 := by
          simp; omega
        rw [this] at hgood
        exact hgood

/-- C1 (amended): for a criteria map of leaf comparisons where every leaf
is an equality comparison (the default, or one of `=`, `!`, `!=`, `<>`)
with a scalar (non-null, non-boolean, non-array) value and a dollar-free
compiled lhs, the compiled predicate's placeholders are exactly
`$offset+1` through `$offset+n`, contiguously in left-to-right order, and
the parameter list has length `n`. (The original claim, quantifying over
arbitrary leaves, is false: see the counterexample with a `null` value,
which compiles to `IS null` with no placeholder and no parameter.) -/
theorem c1_contiguous_placeholders (src : Readable)
    (entries : List (String × JSValue)) (off : Nat)
    (h : ∀ p ∈ entries, eqLeafOK src p) :
    phExtract (predicateCrit src (leavesCrit entries) off
        Kind.forWhere "").predicate
      = List.range' (off + 1) entries.length ∧
    (predicateCrit src (leavesCrit entries) off
        Kind.forWhere "").params.length = entries.length := by
  cases entries with
  | nil => exact ⟨rfl, rfl⟩
  | cons p rest =>
    obtain ⟨k, v⟩ := p
    obtain ⟨pieces, prms, heq, hlen1, hlen2, hgood⟩ :=
      conjoin_leaves_go src ((k, v) :: rest) [] [] off h
    have hpred : predicateCrit src (leavesCrit ((k, v) :: rest)) off
        Kind.forWhere ""
        = ⟨joinSep " AND " (conjoinGo src .forWhere ""
             (leavesCrit ((k, v) :: rest)) ⟨[], [], off⟩).predicates,
           (conjoinGo src .forWhere "" (leavesCrit ((k, v) :: rest))
             ⟨[], [], off⟩).params⟩ := rfl
    rw [hpred, heq]
    simp only [List.nil_append]
    constructor
    · have hcond1 : ∀ c ∈ (" AND ").data, c ≠ '$' := by decide
      have hcond2 : ∀ c, (" AND ").data.head? = some c → c.isDigit = false := by
        intro c hc
        have h2 : some ' ' = some c := hc
        cases h2
        decide
      have hcond3 : (" AND ").data ≠ [] := by decide
      have := joinSep_extract " AND " hcond1 hcond2 hcond3 pieces
        (off + 1) (by simpa using hgood)
      rw [this, hlen1]
    · simpa using hlen2

/-- C1 counterexample: the claim as stated fails at the one-leaf criteria
map `{a: null}` with offset 0. The code compiles it to `"a" IS null`: zero
placeholders and zero parameters, where the claim demands placeholder `$1`
and one parameter. -/
theorem c1_counterexample :
    phExtract (predicateCrit relMytable (Crit.leafE "a" JSValue.vnull
        Crit.cnil) 0 Kind.forWhere "").predicate = ([] : List Nat)
    ∧ (predicateCrit relMytable (Crit.leafE "a" JSValue.vnull Crit.cnil) 0
        Kind.forWhere "").params = []
    ∧ (predicateCrit relMytable (Crit.leafE "a" JSValue.vnull Crit.cnil) 0
        Kind.forWhere "").predicate = "\"a\" IS null"
    ∧ ([] : List Nat) ≠ [0 + 1] := by
  refine ⟨rfl, rfl, rfl, by decide⟩

/-- C1 witness: `{name: "Alice", age: 21}` at offset 0 compiles with
placeholders exactly `[1, 2]` and two parameters. -/
theorem c1_witness :
    phExtract (predicateCrit relMytable
        (leavesCrit [("name", .vstr "Alice"), ("age", .vnum 21)]) 0
        Kind.forWhere "").predicate = [1, 2]
    ∧ (predicateCrit relMytable
        (leavesCrit [("name", .vstr "Alice"), ("age", .vnum 21)]) 0
        Kind.forWhere "").params.length = 2 := by
  have := c1_contiguous_placeholders relMytable
    [("name", .vstr "Alice"), ("age", .vnum 21)] 0 (by decide)
  simpa [List.range'] using this

theorem withAppendix_lhs (k : String) (src : Readable) (v : JSValue)
    (off : Nat) : (withAppendix k src v off).lhs = (parseKeyF k src).lhs :=
  rfl

theorem withAppendix_isJSON (k : String) (src : Readable) (v : JSValue)
    (off : Nat) :
    (withAppendix k src v off).isJSON = (parseKeyF k src).isJSON :=
  rfl

theorem withAppendix_operator (k : String) (src : Readable) (v : JSValue)
    (off : Nat) :
    (withAppendix k src v off).operator = (appendedFor k src).operator :=
  rfl

theorem withAppendix_mutator (k : String) (src : Readable) (v : JSValue)
    (off : Nat) :
    (withAppendix k src v off).mutator = (appendedFor k src).mutator :=
  rfl

theorem withAppendix_offset (k : String) (src : Readable) (v : JSValue)
    (off : Nat) : (withAppendix k src v off).offset = off :=
  rfl

theorem withAppendix_params (k : String) (src : Readable) (v : JSValue)
    (off : Nat) : (withAppendix k src v off).params = [] :=
  rfl

theorem applyMutators_eq_array (c : Condition) (arr : List JSValue)
    (hm : c.mutator = some Mutator.equality) (hjson : c.isJSON = false) :
    applyMutators c (.varr arr)
      = buildIn { c with value := CondVal.js (.varr arr) } arr := by
  simp only [applyMutators, hjson, Bool.false_eq_true, false_and, if_false,
    hm, equalityMut]

theorem inListRender_length (arr : List JSValue) : ∀ k : Nat,
    (inListRender k arr).length = arr.length := by
  induction arr with
  | nil => intro k; rfl
  | cons v rest ih => intro k; simpa [inListRender] using ih (k + 1)

theorem inListRender_good (arr : List JSValue) : ∀ k : Nat,
    goodPieces (inListRender k arr) k := by
  induction arr with
  | nil => intro k; trivial
  | cons v rest ih =>
    intro k
    refine ⟨?_, ih (k + 1)⟩
    show phAux ("$" ++ natStr k ++ castTimestamp v).data none = [k]
    have hdata : ("$" ++ natStr k ++ castTimestamp v).data
        = ([] : List Char) ++ '$' :: ((natStr k).data
            ++ (castTimestamp v).data) := by
      simp [strData_append]
    rw [hdata]
    apply phExtract_piece
    · intro c hc; simp at hc
    · intro c hc
      by_cases hd : isDate v = true
      · simp only [castTimestamp, hd, if_true] at hc
        have h2 : some ':' = some c := hc
        cases h2; decide
      · simp [castTimestamp, hd] at hc
    · intro c hc
      by_cases hd : isDate v = true
      · simp only [castTimestamp, hd, if_true] at hc
        fin_cases hc <;> decide
      · simp [castTimestamp, hd] at hc

/-- C2 (amended): a criteria leaf whose value is an array under the
equality operator compiles through the IN mutator: an empty array becomes
`ANY ('{}')` (for `=`) or `ALL ('{}')` (for `<>`) — note the space between
ANY/ALL and the literal, which the original claim's exact text omits —
adding no parameter; a non-empty array of `k` elements switches the
operator to `IN` / `NOT IN`, emits one placeholder per element numbered
consecutively from the running offset, and appends the `k` elements to the
parameter list in order. -/
theorem c2_in_mutator (src : Readable) (k : String) (arr : List JSValue)
    (ps : List String) (pr : List JSValue) (off : Nat)
    (hm : (appendedFor k src).mutator = some Mutator.equality)
    (hjson : (parseKeyF k src).isJSON = false) :
    (arr = [] →
      conjoinGo src .forWhere "" (.leafE k (.varr arr) .cnil) ⟨ps, pr, off⟩
        = ⟨ps ++ [(parseKeyF k src).lhs ++ " "
              ++ (appendedFor k src).operator ++ " "
              ++ (if (appendedFor k src).operator = "="
                  then "ANY (\x27\x7b\x7d\x27)"
                  else "ALL (\x27\x7b\x7d\x27)")],
           pr, off⟩) ∧
    (arr ≠ [] →
      conjoinGo src .forWhere "" (.leafE k (.varr arr) .cnil) ⟨ps, pr, off⟩
        = ⟨ps ++ [(parseKeyF k src).lhs ++ " "
              ++ (if (appendedFor k src).operator = "=" then "IN"
                  else "NOT IN") ++ " "
              ++ ("(" ++ joinSep ","
                    (inListRender (off + pr.length + 1) arr) ++ ")")],
           pr ++ arr, off⟩
      ∧ phExtract (joinSep "," (inListRender (off + pr.length + 1) arr))
          = List.range' (off + pr.length + 1) arr.length) := by
  have hstep : conjoinGo src .forWhere "" (.leafE k (.varr arr) .cnil)
      ⟨ps, pr, off⟩
      = pushCond ⟨ps, pr, off⟩ (applyMutators
          (withAppendix k src (.varr arr) (off + pr.length + 1))
          (.varr arr)) := rfl
  have happ := applyMutators_eq_array
    (withAppendix k src (.varr arr) (off + pr.length + 1)) arr
    (by rw [withAppendix_mutator, hm])
    (by rw [withAppendix_isJSON, hjson])
  constructor
  · intro he
    subst he
    rw [hstep, happ]
    simp only [buildIn, List.length_nil, reduceIte, pushCond, renderCondVal,
      withAppendix_lhs, withAppendix_operator, withAppendix_params,
      List.append_nil]
  · intro hne
    have hlen0 : ¬ (arr.length = 0) := by
      intro hcon
      exact hne (List.length_eq_zero.mp hcon)
    constructor
    · rw [hstep, happ]
      simp only [buildIn, if_neg hlen0, pushCond, renderCondVal,
        withAppendix_lhs, withAppendix_operator, withAppendix_params,
        withAppendix_offset, List.nil_append]
    · have hcond1 : ∀ c ∈ (",").data, c ≠ '$' := by decide
      have hcond2 : ∀ c, (",").data.head? = some c → c.isDigit = false := by
        intro c hc
        have h2 : some ',' = some c := hc
        cases h2; decide
      have hcond3 : (",").data ≠ [] := by decide
      rw [joinSep_extract "," hcond1 hcond2 hcond3 _ _
        (inListRender_good arr (off + pr.length + 1)),
        inListRender_length arr (off + pr.length + 1)]

/-- C2 counterexample: the claim's exact text for the empty-array case is
`"tags" = ANY('{}')`, but the code (delete.js line 90) emits a space
between `ANY` and the parenthesized literal: `"tags" = ANY ('{}')`. -/
theorem c2_counterexample :
    (conjoin relMytable Kind.forWhere ""
        (Crit.leafE "tags" (JSValue.varr []) Crit.cnil) 0).predicates
      = ["\"tags\" = ANY (\x27\x7b\x7d\x27)"]
    ∧ "\"tags\" = ANY (\x27\x7b\x7d\x27)" ≠ "\"tags\" = ANY(\x27\x7b\x7d\x27)"
    := ⟨rfl, by decide⟩

/-- C2 witness: `{tags: ["a","b"]}` compiles to `"tags" IN ($1,$2)` with
params `["a","b"]`, and the placeholder ordinals of the IN list are
exactly `[1, 2]`. -/
theorem c2_witness :
    conjoinGo relMytable .forWhere ""
        (.leafE "tags" (.varr [.vstr "a", .vstr "b"]) .cnil) ⟨[], [], 0⟩
      = ⟨["\"tags\" IN ($1,$2)"], [.vstr "a", .vstr "b"], 0⟩
    ∧ phExtract (joinSep ","
        (inListRender 1 [JSValue.vstr "a", JSValue.vstr "b"])) = [1, 2] := by
  have h := (c2_in_mutator relMytable "tags" [.vstr "a", .vstr "b"] [] [] 0
    (by decide) (by decide)).2 (List.cons_ne_nil _ _)
  refine ⟨?_, ?_⟩
  · rw [h.1]; rfl
  · have h2 := h.2
    simpa [List.range'] using h2

theorem castTimestampOpt_some (v : JSValue) :
    castTimestampOpt (some v) = castTimestamp v := rfl

theorem applyMutators_between (c : Condition) (v : JSValue)
    (hm : c.mutator = some Mutator.between) (hjson : c.isJSON = false) :
    applyMutators c v = buildBetween { c with value := CondVal.js v } v := by
  simp only [applyMutators, hjson, Bool.false_eq_true, false_and, if_false,
    hm]

/-- C7 (amended): the BETWEEN mutator performs no arity validation — a
malformed value compiles without any error (see the counterexample) — and
for a two-element value it emits `$n AND $n+1`, appending a `::timestamptz`
cast to each bound that is a `Date`, with both elements appended to the
parameter list. -/
theorem c7_between_mutator (src : Readable) (k : String) (a b : JSValue)
    (ps : List String) (pr : List JSValue) (off : Nat)
    (hop : (appendedFor k src).operator = "BETWEEN")
    (hm : (appendedFor k src).mutator = some Mutator.between)
    (hjson : (parseKeyF k src).isJSON = false) :
    conjoinGo src .forWhere "" (.leafE k (.varr [a, b]) .cnil) ⟨ps, pr, off⟩
      = ⟨ps ++ [(parseKeyF k src).lhs ++ " " ++ "BETWEEN" ++ " "
          ++ ("$" ++ natStr (off + pr.length + 1) ++ castTimestamp a
              ++ " AND $" ++ natStr (off + pr.length + 1 + 1)
              ++ castTimestamp b)],
         pr ++ [a, b], off⟩ := by
  have hstep : conjoinGo src .forWhere "" (.leafE k (.varr [a, b]) .cnil)
      ⟨ps, pr, off⟩
      = pushCond ⟨ps, pr, off⟩ (applyMutators
          (withAppendix k src (.varr [a, b]) (off + pr.length + 1))
          (.varr [a, b])) := rfl
  have happ := applyMutators_between
    (withAppendix k src (.varr [a, b]) (off + pr.length + 1)) (.varr [a, b])
    (by rw [withAppendix_mutator, hm])
    (by rw [withAppendix_isJSON, hjson])
  rw [hstep, happ]
  simp only [buildBetween, pushCond, renderCondVal, withAppendix_lhs,
    withAppendix_operator, withAppendix_offset, withAppendix_params, hop,
    castTimestampOpt_some, List.head?_cons, List.drop_succ_cons,
    List.drop_zero]

/-- C7 witness: `{created between: [d1, d2]}` with two `Date` bounds
compiles to `"created" BETWEEN $1::timestamptz AND $2::timestamptz` with
both dates as parameters. -/
theorem c7_witness :
    conjoinGo relMytable .forWhere ""
        (.leafE "created between" (.varr [.vdate "D1", .vdate "D2"]) .cnil)
        ⟨[], [], 0⟩
      = ⟨["\"created\" BETWEEN $1::timestamptz AND $2::timestamptz"],
         [.vdate "D1", .vdate "D2"], 0⟩ := by
  have h := c7_between_mutator relMytable "created between"
    (.vdate "D1") (.vdate "D2") [] [] 0 (by decide) (by decide) (by decide)
  rw [h]; rfl

/-- C7 counterexample: the claim says a `between` value that is not a
two-element sequence fails with a `CompileError` before execution; the
code performs no such check. A one-element value compiles a full `Select`
without any error, producing `$1 AND $2` with only one parameter. -/
theorem c7_counterexample :
    (mkSelect relMytable (.obj (.crit (.leafE "created_at between"
        (.varr [.vnum 1]) .cnil))) {}).toOption.map
          (fun s => (s.predicate, s.params))
      = some ("\"created_at\" BETWEEN $1 AND $2", [JSValue.vnum 1]) := rfl

/-- C8: an empty criteria map compiles to the constant predicate `TRUE`
with an empty parameter list, regardless of the offset, of document mode
(`Kind.forDoc`) and of the compilation kind a statement selects. -/
theorem c8_empty_criteria (src : Readable) (off : Nat) (kind : Kind)
    (jarg : String) :
    predicateF src (.crit .cnil) off kind jarg
      = { predicate := "TRUE", params := [] } := rfl

/-- C10 (amended): a falsy criteria argument — `null`, `undefined`, but
also the falsy primitives `0`, `''` and `false` — throws (see the
counterexample for `0`); a truthy non-object primitive is converted into an
equality criteria on the first primary-key column, throwing when the source
has no primary key, and forces the `single` flag exactly when the source is
not a compound (join) relation. -/
theorem c10_primitive_criteria (src : Readable) (document single : Bool)
    (v : JSValue) (htr : jsTruthy v = true) :
    (src.pk = none →
      setCriteria src document single (.prim v) []
        = .error (delimitedFullName src ++ " doesn\x27t have a primary key."))
    ∧ (∀ p ptl, src.pk = some (p :: ptl) →
        ∃ st, setCriteria src document single (.prim v) [] = .ok st
          ∧ st.criteria = .crit (.leafE p v .cnil)
          ∧ st.single = (if src.isJoin then single else true))
    ∧ setCriteria src document single .cnull []
        = .error "Criteria cannot be null or undefined. Pass \x7b\x7d to operate on all rows." := by
  refine ⟨?_, ?_, rfl⟩
  · intro hpk
    simp [setCriteria, htr, hpk]
  · intro p ptl hpk
    refine ⟨setCriteriaFinish src document (.prim v)
      (CritObj.crit (.leafE p v .cnil))
      (if src.isJoin then single else true) [], ?_, rfl, rfl⟩
    simp [setCriteria, htr, hpk]

/-- C10 counterexample: the primitive `0` is a legitimate primary-key value
and not a plain object, yet the code's falsy guard throws the
null-criteria error instead of converting it, contradicting the claim that
any non-object primitive is converted into a pk equality criteria. -/
theorem c10_counterexample :
    setCriteria relMytable false false (.prim (.vnum 0)) []
      = .error "Criteria cannot be null or undefined. Pass \x7b\x7d to operate on all rows." := rfl

/-- C10 witness: the truthy primitive `7` against a relation with primary
key `id` becomes `{id: 7}` and forces `single`; without a primary key the
conversion throws. -/
theorem c10_witness :
    (∃ st, setCriteria relMytable false false (.prim (.vnum 7)) [] = .ok st
      ∧ st.criteria = .crit (.leafE "id" (.vnum 7) .cnil)
      ∧ st.single = true)
    ∧ setCriteria { relMytable with pk := none } false false
        (.prim (.vnum 7)) []
      = .error "\"mytable\" doesn\x27t have a primary key." := by
  constructor
  · obtain ⟨st, h1, h2, h3⟩ :=
      (c10_primitive_criteria relMytable false false (.vnum 7)
        (by decide)).2.1 "id" [] rfl
    exact ⟨st, h1, h2, by simpa using h3⟩
  · exact (c10_primitive_criteria { relMytable with pk := none } false false
      (.vnum 7) (by decide)).1 rfl

theorem findJoin_eq_find (t0 : String) (rest : List String)
    (ps : List Bool) : ∀ joins : List JoinInfo,
    findJoin (t0 :: rest) ps joins
      = (joins.find? (fun j => joinNodeMatches j t0 rest.head?)).map
          (fun j => joinNodeOutcome j t0 rest ps) := by
  intro joins
  induction joins with
  | nil => rfl
  | cons j js ih =>
    by_cases h1 : strContains j.jalias t0 = true
    · have hm : joinNodeMatches j t0 rest.head? = true := by
        simp [joinNodeMatches, h1]
      simp only [List.find?, hm]
      simp [findJoin, h1, joinNodeOutcome]
    · by_cases h2 : j.relation = t0
      · have hm : joinNodeMatches j t0 rest.head? = true := by
          simp [joinNodeMatches, h2]
        simp only [List.find?, hm]
        simp [findJoin, h1, h2, joinNodeOutcome]
      · by_cases h3 : j.jschema = some t0 ∧ rest.head? = some j.relation
        · have hm : joinNodeMatches j t0 rest.head? = true := by
            simp [joinNodeMatches, h3.1, h3.2]
          simp only [List.find?, hm]
          simp [findJoin, h1, h2, h3, joinNodeOutcome]
        · have hm : joinNodeMatches j t0 rest.head? = false := by
            simp only [joinNodeMatches, Bool.or_eq_false_iff,
              Bool.and_eq_false_iff]
            refine ⟨⟨by simpa using h1, ?_⟩, ?_⟩
            · simpa using h2
            · rcases not_and_or.mp h3 with hc | hc
              · exact Or.inl (by simpa using hc)
              · exact Or.inr (by simpa using hc)
          simp only [List.find?, hm]
          rw [← ih]
          simp [findJoin, h1, h2, h3]

/-- C3 (amended): the compound key resolver strips disambiguation tokens
by: (1) origin name; (2) origin schema+name (schema retained only here);
then the join nodes are visited in order and for each node, in this order,
(3) the first token being a substring of the node's alias (the token itself
becomes the alias), (4) the first token equalling the node's relation name,
(5) the first two tokens equalling the node's schema and name; the first
node where any case hits wins; (6) otherwise the origin is assumed. The
original claim's reading — each case exhausted over all nodes before the
next case — is refuted by the counterexample. -/
theorem c3_resolution_precedence (src : Readable) (tokens : List String)
    (ps : List Bool) :
    resolveCompound src tokens ps = resolveAmended src tokens ps := by
  match tokens with
  | [] => rfl
  | t0 :: rest =>
    simp only [resolveCompound, resolveAmended]
    by_cases h1 : src.name = t0
    · simp [h1]
    · by_cases h2 : src.schema = t0 ∧ rest.head? = some src.name
      · simp [h1, h2]
      · simp only [if_neg h1, if_neg h2]
        rw [findJoin_eq_find t0 rest ps src.joins]
        cases src.joins.find? (fun j => joinNodeMatches j t0 rest.head?) with
        | none => rfl
        | some j => rfl

/-- C3 counterexample: against `cjx` the key `t.f` matches node `x` by its
relation name (case 4) — because the nodes are visited one at a time —
yielding lhs `"x"."f"`, while the claim's global precedence would have
node `t`'s alias (case 3) win and yield alias `t`. -/
theorem c3_counterexample :
    (parseKeyF "t.f" cjx).lhs = "\"x\".\"f\""
    ∧ resolveClaim cjx ["t", "f"] [true]
        ≠ resolveCompound cjx ["t", "f"] [true] := by
  refine ⟨rfl, fun h => ?_⟩
  have := congrArg ResolveOut.ralias h
  revert this
  decide

theorem upsertAssoc_mem (m : List (String × List (String × String)))
    (k : String) (v : List (String × String)) :
    ∀ c ∈ upsertAssoc m k v, c ∈ m ∨ c = (k, v) := by
  intro c hc
  unfold upsertAssoc at hc
  by_cases hany : m.any (fun p => p.1 == k) = true
  · rw [if_pos hany] at hc
    obtain ⟨p, hp, hpc⟩ := List.mem_map.mp hc
    by_cases hk : p.1 == k
    · right
      rw [if_pos hk] at hpc
      exact hpc.symm
    · left
      rw [if_neg hk] at hpc
      exact hpc ▸ hp
  · rw [if_neg hany] at hc
    rcases List.mem_append.mp hc with h | h
    · exact Or.inl h
    · exact Or.inr (by simpa using h)

theorem candidateStep_fold (self parent : Readable) (pa : String) :
    ∀ (l : List Fk) (acc : List (String × List (String × String))),
      (∀ fk ∈ l, fk ∈ self.fks ∨ fk ∈ parent.fks) →
      (∀ c ∈ acc, candidateOK self parent pa c) →
      ∀ c ∈ l.foldl (candidateStep self parent pa) acc,
        candidateOK self parent pa c := by
  intro l
  induction l with
  | nil => intro acc _ hacc c hc; exact hacc c hc
  | cons fk rest ih =>
    intro acc hl hacc c hc
    simp only [List.foldl_cons] at hc
    refine ih (candidateStep self parent pa acc fk)
      (fun x hx => hl x (by simp [hx])) ?_ c hc
    intro d hd
    unfold candidateStep at hd
    by_cases h1 : fkOriginIs fk self = true
    · rw [if_pos h1] at hd
      rcases upsertAssoc_mem _ _ _ d hd with h | h
      · exact hacc d h
      · exact ⟨fk, hl fk (by simp), by rw [h], Or.inl ⟨h1, by rw [h]⟩⟩
    · rw [if_neg h1] at hd
      by_cases h2 : fkOriginIs fk parent = true
      · rw [if_pos h2] at hd
        rcases upsertAssoc_mem _ _ _ d hd with h | h
        · exact hacc d h
        · exact ⟨fk, hl fk (by simp), by rw [h],
            Or.inr ⟨by simpa using h1, h2, by rw [h]⟩⟩
      · rw [if_neg h2] at hd
        exact hacc d hd

/-- C4: deriving a join predicate without an explicit `on`: every candidate
found by `findCandidateJoinKeys` is a foreign key connecting the joined
relation and its parent (in either direction), oriented with the joined
relation's columns on the left and the parent's alias-qualified columns on
the right regardless of which side declared the key; with exactly one
candidate it is used, with zero the composition fails demanding an explicit
`on`, and with more than one it fails as ambiguous. -/
theorem c4_join_key_derivation (self parent : Readable) (pa nm : String) :
    (∀ c ∈ findCandidateJoinKeys self parent pa,
      candidateOK self parent pa c)
    ∧ (findCandidateJoinKeys self parent pa = [] →
        deriveJoinOn none nm self parent pa
          = .error ("An explicit \x27on\x27 mapping is required for "
              ++ nm ++ "."))
    ∧ (∀ c, findCandidateJoinKeys self parent pa = [c] →
        deriveJoinOn none nm self parent pa = .ok (critOfPairs c.2))
    ∧ (∀ c1 c2 cs, findCandidateJoinKeys self parent pa = c1 :: c2 :: cs →
        deriveJoinOn none nm self parent pa
          = .error ("Ambiguous foreign keys for " ++ nm
              ++ ". Define join keys explicitly.")) := by
  refine ⟨?_, ?_, ?_, ?_⟩
  · exact candidateStep_fold self parent pa (self.fks ++ parent.fks) []
      (fun fk hfk => List.mem_append.mp hfk) (fun c hc => by simp at hc)
  · intro h
    simp [deriveJoinOn, h]
  · intro c h
    simp [deriveJoinOn, h]
  · intro c1 c2 cs h
    simp [deriveJoinOn, h]

/-- C4 witness: joining `posts` to `users` with no explicit `on`
auto-derives `{user_id: "users".id}` from the single foreign key; a second
plausible foreign key makes derivation fail as ambiguous. -/
theorem c4_witness :
    deriveJoinOn none "posts" posts users "\"users\""
      = .ok (critOfPairs [("user_id", "\"users\".id")])
    ∧ deriveJoinOn none "posts" posts { users with fks := [fkPU, fkAuthor] }
        "\"users\""
      = .error "Ambiguous foreign keys for posts. Define join keys explicitly." := by
  constructor
  · exact (c4_join_key_derivation posts users "\"users\"" "posts").2.2.1
      ("posts_user_id_fkey", [("user_id", "\"users\".id")]) rfl
  · exact (c4_join_key_derivation posts
      { users with fks := [fkPU, fkAuthor] } "\"users\"" "posts").2.2.2
      ("posts_user_id_fkey", [("user_id", "\"users\".id")])
      ("posts_author_id_fkey", [("author_id", "\"users\".id")]) [] rfl

mutual

theorem joinReduceNode_aliases
    (db : List ((Option String × String) × Readable)) (key : String)
    (n : JoinDefNode) (parentR : Readable) (pa : String)
    (seen : List String) (out : List JoinRel × List String)
    (h : joinReduceNode db key n parentR pa seen = .ok out) :
    out.2 = seen ++ out.1.map (fun r => r.jralias)
    ∧ (seen.Nodup → out.2.Nodup) := by
  cases n with
  | mk relationOpt typeOpt onOpt pkOpt omitFlag children =>
    simp only [joinReduceNode] at h
    set ja : String := (if relationOpt.isSome = true then key
      else optTok (lex (relationOpt.getD key)).tokens.getLast?) with hja
    split at h <;> try exact Except.noConfusion h
    rename_i readable hdb
    split at h <;> try exact Except.noConfusion h
    rename_i hseen
    split at h <;> try exact Except.noConfusion h
    rename_i hpk
    split at h <;> try exact Except.noConfusion h
    rename_i onC hon
    split at h <;> try exact Except.noConfusion h
    rename_i childRels seen2 hentries
    cases h
    have hrec := joinReduceEntries_aliases db children readable ja
      (seen ++ [ja]) (childRels, seen2) hentries
    have hrec1 : seen2 = (seen ++ [ja])
        ++ childRels.map (fun r => r.jralias) := hrec.1
    have hnotin : ja ∉ seen := by
      intro hmem
      exact hseen (by simpa using hmem)
    constructor
    · dsimp only
      rw [hrec1]
      simp
    · intro hnd
      dsimp only
      exact hrec.2 (by simp [List.nodup_append, hnd, hnotin])

theorem joinReduceEntries_aliases
    (db : List ((Option String × String) × Readable))
    (entries : JoinDefEntries) (parentR : Readable) (pa : String)
    (seen : List String) (out : List JoinRel × List String)
    (h : joinReduceEntries db entries parentR pa seen = .ok out) :
    out.2 = seen ++ out.1.map (fun r => r.jralias)
    ∧ (seen.Nodup → out.2.Nodup) := by
  cases entries with
  | jnil =>
    simp only [joinReduceEntries] at h
    cases h
    exact ⟨by simp, fun hd => hd⟩
  | jcons key node rest =>
    simp only [joinReduceEntries] at h
    split at h <;> try exact Except.noConfusion h
    rename_i nodeRels seen1 hnode
    split at h <;> try exact Except.noConfusion h
    rename_i restRels seen2 hrest
    cases h
    have h1 := joinReduceNode_aliases db key node parentR pa seen
      (nodeRels, seen1) hnode
    have h2 := joinReduceEntries_aliases db rest parentR pa seen1
      (restRels, seen2) hrest
    have h1a : seen1 = seen ++ nodeRels.map (fun r => r.jralias) := h1.1
    have h2a : seen2 = seen1 ++ restRels.map (fun r => r.jralias) := h2.1
    constructor
    · dsimp only
      rw [h2a, h1a]
      simp
    · intro hnd
      dsimp only
      exact h2.2 (h1.2 hnd)

end

/-- C9: aliases are unique within a compiled compound relation: whenever
the join composer succeeds, the origin relation's name together with the
aliases of every join node, in traversal order, form a duplicate-free
list. Contrapositively, a definition repeating an alias already seen in
the tree (including the origin's name) never yields a compound relation:
the repeat is rejected (readable.js lines 555-556) against the seen-alias
list seeded with the origin's name (line 510). -/
theorem c9_alias_uniqueness
    (db : List ((Option String × String) × Readable)) (origin : Readable)
    (defs : JoinDefEntries) (rels : List JoinRel)
    (h : joinCompile db origin defs = .ok rels) :
    (origin.name :: rels.map (fun r => r.jralias)).Nodup := by
  unfold joinCompile at h
  cases hcall : joinReduceEntries db defs origin (delimitedFullName origin)
      [origin.name] with
  | error e =>
    rw [hcall] at h
    exact Except.noConfusion h
  | ok pr =>
    obtain ⟨rels2, seen2⟩ := pr
    rw [hcall] at h
    simp only [Except.ok.injEq] at h
    subst h
    have hh := joinReduceEntries_aliases db defs origin
      (delimitedFullName origin) [origin.name] (rels2, seen2) hcall
    have hnd := hh.2 (by simp)
    have hh1 : seen2 = [origin.name] ++ rels2.map (fun r => r.jralias) :=
      hh.1
    rw [hh1] at hnd
    simpa using hnd

/-- C9 witness: compiling `users.join('posts')` succeeds and its alias
list `["users", "posts"]` is duplicate-free. -/
theorem c9_witness :
    (users.name :: ((joinCompile db0 users defPosts).toOption.getD []).map
      (fun r => r.jralias)).Nodup :=
  c9_alias_uniqueness db0 users defPosts
    ((joinCompile db0 users defPosts).toOption.getD []) rfl

theorem strAppend_assoc (a b c : String) : a ++ b ++ c = a ++ (b ++ c) := by
  cases a with | mk la =>
  cases b with | mk lb =>
  cases c with | mk lc =>
  show String.mk ((la ++ lb) ++ lc) = String.mk (la ++ (lb ++ lc))
  rw [List.append_assoc]

theorem strAppend_empty (a : String) : a ++ "" = a := by
  cases a with | mk la =>
  show String.mk (la ++ []) = String.mk la
  rw [List.append_nil]

theorem str_ite_append (c : Prop) [Decidable c] (a x : String) :
    (if c then a ++ x else a) = a ++ (if c then x else "") := by
  split
  · rfl
  · exact (strAppend_empty a).symm

theorem str_ite_append2 (c : Prop) [Decidable c] (a x y : String) :
    (if c then a ++ x ++ y else a) = a ++ (if c then x ++ y else "") := by
  split
  · rw [strAppend_assoc]
  · exact (strAppend_empty a).symm

theorem str_ite_append3 (c : Prop) [Decidable c] (a x y z : String) :
    (if c then a ++ x ++ y ++ z else a)
      = a ++ (if c then x ++ y ++ z else "") := by
  split
  · rw [strAppend_assoc, strAppend_assoc, strAppend_assoc]
  · exact (strAppend_empty a).symm

/-- Wherever the compiled pagination predicate is present, `format` places
it immediately after the WHERE predicate, joined by AND (select.js lines
223-225). -/
theorem formatSelect_pagination (s : SelectState) (pag : String)
    (hp : s.pagination = some pag) :
    ∃ pre post, formatSelect s
      = pre ++ "WHERE " ++ s.predicate ++ " AND " ++ pag ++ post := by
  obtain ⟨sr, sg, dc, onl, ds, slist, ord, offo, lim, plen, lck, pgn, prd, prm⟩ := s
  dsimp only at hp ⊢
  subst hp
  refine ⟨"SELECT " ++ (if ds then "DISTINCT " else "")
      ++ joinSep "," slist ++ " FROM "
      ++ (if onl then "ONLY " else "")
      ++ delimitedFullName sr ++ " "
      ++ (if sr.isJoin then joinSep "" (sr.joins.map (fun j =>
          j.jtype ++ " JOIN " ++ j.target ++ " ON " ++ j.onPredicate ++ " "))
        else ""),
    (if ord.length > 0 then " ORDER BY " ++ joinSep "," ord else "")
      ++ (match lck with
          | some l => " FOR " ++ l.strength
          | none => "")
      ++ (match lck with
          | some l =>
            match l.lockedRows with
            | some r => if r ≠ "" then " " ++ r else ""
            | none => ""
          | none => "")
      ++ (match plen with
          | some v => if jsTruthy v then
              " FETCH FIRST " ++ displayValue v ++ " ROWS ONLY"
            else ""
          | none => "")
      ++ (match offo with
          | some v => if jsTruthy v then " OFFSET " ++ displayValue v else ""
          | none => "")
      ++ (if sg then " LIMIT 1"
          else match lim with
            | some v => if jsTruthy v then " LIMIT " ++ displayValue v else ""
            | none => ""), ?_⟩
  rcases lck with _ | ⟨lstr, lrows⟩ <;> try rcases lrows with _ | lr
  all_goals rcases plen with _ | pv
  all_goals rcases offo with _ | ov
  all_goals rcases lim with _ | lv
  all_goals cases sg
  all_goals simp only [formatSelect]
  all_goals simp only [str_ite_append3, str_ite_append2, str_ite_append]
  all_goals simp [strAppend_empty, strAppend_assoc]

theorem phExtract_dollar_nat (k : Nat) : phExtract ("$" ++ natStr k) = [k] := by
  have h := phExtract_piece [] k [] (by simp) (by intro c hc; simp at hc)
    (by simp)
  simpa [phExtract, strData_append] using h

/-- The placeholder strings emitted at select.js line 49 extract to
consecutive ordinals. -/
theorem goodPieces_range (p : Nat) : ∀ (cnt s : Nat),
    goodPieces ((List.range' s cnt).map (fun i => "$" ++ natStr (i + p + 1)))
      (s + p + 1) := by
  intro cnt
  induction cnt with
  | zero => intro s; simp [goodPieces]
  | succ n ih =>
    intro s
    rw [List.range'_succ]
    simp only [List.map_cons, goodPieces]
    refine ⟨phExtract_dollar_nat (s + p + 1), ?_⟩
    have h := ih (s + 1)
    have he : s + 1 + p + 1 = s + p + 1 + 1 := by omega
    rw [he] at h
    exact h

/-- The joined placeholder list of the keyset comparison extracts to the
ordinals `p+1 .. p+n` (select.js line 49 with `p` parameters present). -/
theorem phs_extract (p n : Nat) :
    phExtract (joinSep ","
        ((List.range n).map (fun i => "$" ++ natStr (i + p + 1))))
      = List.range' (p + 1) n := by
  have hg : goodPieces
      ((List.range n).map (fun i => "$" ++ natStr (i + p + 1))) (0 + p + 1) := by
    rw [List.range_eq_range']
    exact goodPieces_range p n 0
  have h := joinSep_extract ","
    (by intro c hc
        have h0 : (",".data) = [','] := rfl
        rw [h0] at hc
        simp at hc
        subst hc
        decide)
    (by intro c hc
        have h0 : ((",".data)).head? = some ',' := rfl
        rw [h0] at hc
        cases hc
        decide)
    (by decide)
    ((List.range n).map (fun i => "$" ++ natStr (i + p + 1))) (0 + p + 1) hg
  simpa using h

/-- A separator-joined list of dollar-free strings is dollar-free. -/
theorem joinSep_noDollar (sep : String) (hs : noDollarS sep = true) :
    ∀ l : List String, (∀ s ∈ l, noDollarS s = true) →
      noDollarS (joinSep sep l) = true := by
  intro l
  induction l with
  | nil => intro _; rfl
  | cons a m ih =>
    intro h
    cases m with
    | nil => simpa [joinSep] using h a (by simp)
    | cons b m2 =>
      have h1 := noDollar_chars a (h a (by simp))
      have h2 := noDollar_chars _ (ih (fun s hsm => h s (by simp [hsm])))
      have h3 := noDollar_chars sep hs
      show noDollarS (a ++ sep ++ joinSep sep (b :: m2)) = true
      apply List.all_eq_true.mpr
      intro c hc
      simp only [strData_append, List.mem_append] at hc
      rcases hc with (hc | hc) | hc
      · exact decide_eq_true (h1 c hc)
      · exact decide_eq_true (h3 c hc)
      · exact decide_eq_true (h2 c hc)

/-- Success of the pagination column expressions (select.js line 48): every
order entry that compiles to a dollar-free expression contributes it in
order. -/
theorem orderExprList_ok (src : Readable) :
    ∀ l : List OrderEntry,
    (∀ o ∈ l, ∃ s, buildOrderExpression src o = .ok s ∧ noDollarS s = true) →
    ∃ cols, orderExprList src l = .ok cols
      ∧ (∀ s ∈ cols, noDollarS s = true) := by
  intro l
  induction l with
  | nil => intro _; exact ⟨[], rfl, by simp⟩
  | cons o rest ih =>
    intro h
    obtain ⟨s, hs, hnd⟩ := h o (by simp)
    obtain ⟨cols, hc, hall⟩ := ih (fun x hx => h x (by simp [hx]))
    refine ⟨s :: cols, ?_, ?_⟩
    · simp only [orderExprList, hs, hc]
    · intro t ht
      rcases List.mem_cons.mp ht with h1 | h1
      · subst h1; exact hnd
      · exact hall t h1

/-- C6: for every Select construction whose criteria, select list, order
list and lock all compile but whose `pageLength` option is truthy (keyset
paging enabled), the constructor itself fails synchronously: with no
`order` option it throws "Keyset paging with pageLength requires an
explicit order directive", and with an `order` option but an `offset` or
`limit` property present it throws "Keyset paging cannot be used with
offset and limit" (select.js lines 39-47). -/
theorem c6_pagelength_errors (src : Readable) (criteria : CriteriaArg)
    (opts : SelectOptions) (core : StatementCore) (sl ol : List String)
    (lk : Option LockOpt)
    (hset : setCriteria src opts.document opts.single criteria [] = .ok core)
    (hsl : buildSelectList src opts.fields opts.exprs opts.document = .ok sl)
    (hol : buildOrderList src opts.order opts.orderBody = .ok ol)
    (hlock : parseLock opts = .ok lk)
    (hpage : (match opts.pageLength with
      | some v => jsTruthy v
      | none => false) = true) :
    (opts.order = none →
      mkSelect src criteria opts = .error
        "Keyset paging with pageLength requires an explicit order directive")
    ∧ (∀ entries, opts.order = some entries →
        (opts.offset.isSome ∨ opts.limit.isSome) →
        mkSelect src criteria opts = .error
          "Keyset paging cannot be used with offset and limit") := by
  constructor
  · intro hord
    simp only [mkSelect, hset, hsl, hol, hlock]
    simp only [mkSelectPage, hpage, reduceIte, hord]
  · intro entries hord hpresent
    simp only [mkSelect, hset, hsl, hol, hlock]
    simp only [mkSelectPage, hpage, reduceIte, hord]
    rw [if_pos hpresent]

theorem c6_witness :
    mkSelect relMytable (CriteriaArg.obj (CritObj.crit Crit.cnil)) opts6
      = .error
        "Keyset paging with pageLength requires an explicit order directive" :=
  (c6_pagelength_errors relMytable (CriteriaArg.obj (CritObj.crit Crit.cnil))
    opts6 ⟨CritObj.crit Crit.cnil, false, "TRUE", []⟩ ["*"] [] none
    rfl rfl rfl rfl rfl).1 rfl

/-- C5: for every Select with keyset pagination enabled (truthy
`pageLength`, an order list present whose first entry has a `last` value,
no offset/limit) and otherwise compiling options, construction succeeds and
yields a pagination predicate `(orderCols) cmp (placeholders)` where `cmp`
is `<` exactly when the leading order entry is descending and `>`
otherwise, the placeholders are exactly the consecutive ordinals following
all existing parameters (one per order entry), the last-seen values are
appended as the final parameters in order, and `format` emits this
predicate ANDed immediately after the WHERE predicate (select.js lines
39-55 and 223-225). -/
theorem c5_keyset_pagination (src : Readable) (criteria : CriteriaArg)
    (opts : SelectOptions) (e0 : OrderEntry) (es : List OrderEntry)
    (core : StatementCore) (sl ol : List String) (lk : Option LockOpt)
    (hset : setCriteria src opts.document opts.single criteria [] = .ok core)
    (hsl : buildSelectList src opts.fields opts.exprs opts.document = .ok sl)
    (hol : buildOrderList src opts.order opts.orderBody = .ok ol)
    (hlock : parseLock opts = .ok lk)
    (hpage : (match opts.pageLength with
      | some v => jsTruthy v
      | none => false) = true)
    (horder : opts.order = some (e0 :: es))
    (hoff : opts.offset = none) (hlim : opts.limit = none)
    (hlast : e0.last.isSome = true)
    (hexprs : ∀ o ∈ e0 :: es, ∃ s, buildOrderExpression src o = .ok s
      ∧ noDollarS s = true) :
    ∃ sel pag,
      mkSelect src criteria opts = .ok sel
      ∧ sel.pagination = some pag
      ∧ sel.params
          = core.params ++ (e0 :: es).map (fun o => o.last.getD JSValue.vundef)
      ∧ phExtract pag = List.range' (core.params.length + 1) (es.length + 1)
      ∧ (∃ colsL, orderExprList src (e0 :: es) = .ok colsL
          ∧ pag = "(" ++ joinSep "," colsL ++ ") "
              ++ (match e0.direction with
                  | some d => if toLowerStr d = "desc" then "<" else ">"
                  | none => ">")
              ++ " (" ++ joinSep ","
                  ((List.range (es.length + 1)).map (fun i =>
                    "$" ++ natStr (i + core.params.length + 1))) ++ ")")
      ∧ ∃ pre post, formatSelect sel
          = pre ++ "WHERE " ++ core.predicate ++ " AND " ++ pag ++ post := by
  obtain ⟨colsL, hcols, hall⟩ := orderExprList_ok src (e0 :: es) hexprs
  have key : mkSelect src criteria opts = Except.ok
      { source := src
        single := core.single
        document := opts.document
        only := opts.only
        distinct := opts.distinct
        selectList := sl
        order := ol
        offsetOpt := opts.offset
        limit := opts.limit
        pageLength := opts.pageLength
        lock := lk
        pagination := some ("(" ++ joinSep "," colsL ++ ") "
          ++ (match e0.direction with
              | some d => if toLowerStr d = "desc" then "<" else ">"
              | none => ">")
          ++ " (" ++ joinSep ","
              ((List.range (es.length + 1)).map (fun i =>
                "$" ++ natStr (i + core.params.length + 1))) ++ ")")
        predicate := core.predicate
        params := core.params
          ++ (e0 :: es).map (fun o => o.last.getD JSValue.vundef) } := by
    simp only [mkSelect, hset, hsl, hol, hlock]
    simp only [mkSelectPage, hpage, reduceIte, horder]
    rw [if_neg (by simp [hoff, hlim])]
    simp only [hlast, reduceIte, hcols]
    rfl
  refine ⟨_, _, key, rfl, rfl, ?_, ⟨colsL, hcols, rfl⟩, ?_⟩
  · have hnd : noDollarS (joinSep "," colsL) = true :=
      joinSep_noDollar "," (by decide) colsL hall
    generalize hg : (match e0.direction with
        | some d => if toLowerStr d = "desc" then "<" else ">"
        | none => ">") = cmp
    have hcmp : cmp = "<" ∨ cmp = ">" := by
      rw [← hg]
      rcases e0.direction with _ | d
      · right; rfl
      · dsimp only
        split
        · left; rfl
        · right; rfl
    have hprene : ∀ c ∈ ("(" ++ joinSep "," colsL ++ ") " ++ cmp ++ " ("
        : String).data, c ≠ '$' := by
      intro c hc
      simp only [strData_append, List.mem_append] at hc
      rcases hc with ((((hc | hc) | hc) | hc) | hc)
      · exact noDollar_chars "(" (by decide) c hc
      · exact noDollar_chars _ hnd c hc
      · exact noDollar_chars ") " (by decide) c hc
      · rcases hcmp with h1 | h1 <;> rw [h1] at hc
        · exact noDollar_chars "<" (by decide) c hc
        · exact noDollar_chars ">" (by decide) c hc
      · exact noDollar_chars " (" (by decide) c hc
    have hsplit : ("(" ++ joinSep "," colsL ++ ") " ++ cmp ++ " ("
          ++ joinSep "," ((List.range (es.length + 1)).map (fun i =>
            "$" ++ natStr (i + core.params.length + 1))) ++ ")" : String).data
        = ("(" ++ joinSep "," colsL ++ ") " ++ cmp ++ " (" : String).data
          ++ ((joinSep "," ((List.range (es.length + 1)).map (fun i =>
            "$" ++ natStr (i + core.params.length + 1)))).data ++ [')']) := by
      simp only [strData_append, List.append_assoc]
    have h1 : phAux (joinSep "," ((List.range (es.length + 1)).map (fun i =>
          "$" ++ natStr (i + core.params.length + 1)))).data none
        = List.range' (core.params.length + 1) (es.length + 1) :=
      phs_extract core.params.length (es.length + 1)
    have h2 : phAux [')'] none = ([] : List Nat) := by decide
    simp only [phExtract]
    rw [hsplit]
    rw [phAux_noDollar _ hprene]
    rw [phAux_append _ none [')'] (by intro c hcn; cases hcn; decide)]
    rw [h1, h2]
    exact List.append_nil _
  · exact formatSelect_pagination _ _ rfl

theorem c5_witness :
    ∃ sel pag,
      mkSelect relMytable (CriteriaArg.obj (CritObj.crit Crit.cnil)) opts5
        = .ok sel
      ∧ sel.pagination = some pag
      ∧ phExtract pag = [1]
      ∧ sel.params = [JSValue.vdate "T"] := by
  obtain ⟨sel, pag, h1, h2, h3, h4, _⟩ :=
    c5_keyset_pagination relMytable (CriteriaArg.obj (CritObj.crit Crit.cnil))
      opts5 ord5 [] ⟨CritObj.crit Crit.cnil, false, "TRUE", []⟩ ["*"]
      ["\"created_at\" DESC"] none rfl rfl rfl rfl rfl rfl rfl rfl rfl
      (by intro o ho
          simp only [List.mem_singleton] at ho
          subst ho
          exact ⟨"\"created_at\"", rfl, by decide⟩)
  refine ⟨sel, pag, h1, h2, ?_, ?_⟩
  · simpa [List.range'] using h4
  · simpa [ord5] using h3
